import Mathlib

/-!
Verification of the SharedResource operator's reconciliation core.

The Go source (internal/controller) is shallowly embedded: Go maps become
association lists over String keys, Go byte slices become Strings (every
conversion between map[string][]byte and map[string]string in the source is
value-preserving, so it is the identity here), the Kubernetes object store
becomes an explicit lookup function passed as a parameter, and wall-clock
values (metav1.Now, time.Now) become Nat parameters.  SHA-256 is implemented
concretely on byte lists, so computeChecksum is the real function from
helpers.go, not an abstraction.
-/

/-! ## Association-list maps (the embedding of Go map[string]V) -/

/-- Go map read m[k]: first binding of the key, if any. -/
def lookupKV {α : Type} : List (String × α) → String → Option α
  | [], _ => none
  | p :: t, k => if p.1 = k then some p.2 else lookupKV t k

/-- Go map read with the zero value as default (m[k] on a missing key). -/
def lookupD {α : Type} (l : List (String × α)) (k : String) (d : α) : α :=
  (lookupKV l k).getD d

/-- Go map write m[k] = v: replace the binding in place, or append it. -/
def upsert {α : Type} : List (String × α) → String → α → List (String × α)
  | [], k, v => [(k, v)]
  | p :: t, k, v => if p.1 = k then (k, v) :: t else p :: upsert t k v

/-- A Go loop for k, v := range upd that writes base[k] = v for every pair. -/
def overlayKV {α : Type} : List (String × α) → List (String × α) → List (String × α)
  | base, [] => base
  | base, p :: t => overlayKV (upsert base p.1 p.2) t

/-- Go delete(m, k). -/
def eraseKey {α : Type} : List (String × α) → String → List (String × α)
  | [], _ => []
  | p :: t, k => if p.1 = k then eraseKey t k else p :: eraseKey t k

/-- A Go loop for k in ks performing delete(m, k). -/
def eraseList {α : Type} : List (String × α) → List String → List (String × α)
  | l, [] => l
  | l, k :: ks => eraseList (eraseKey l k) ks

/-- The keys of a map, in binding order. -/
def keysOf {α : Type} (l : List (String × α)) : List String :=
  l.map Prod.fst

/-! ## SHA-256 over byte lists (crypto/sha256 as used by computeChecksum) -/

/-- Addition modulo 2 to the 32. -/
def add32 (a b : Nat) : Nat := (a + b) % 4294967296

/-- Rotate a 32-bit word right by n bit positions. -/
def rotr32 (x n : Nat) : Nat := x / 2 ^ n + x % 2 ^ n * 2 ^ (32 - n)

/-- Logical right shift of a 32-bit word. -/
def shr32 (x n : Nat) : Nat := x / 2 ^ n

/-- Bitwise complement of a 32-bit word. -/
def not32 (x : Nat) : Nat := 4294967295 - x

/-- SHA-256 big sigma 0. -/
def bigSigma0 (x : Nat) : Nat := rotr32 x 2 ^^^ rotr32 x 13 ^^^ rotr32 x 22

/-- SHA-256 big sigma 1. -/
def bigSigma1 (x : Nat) : Nat := rotr32 x 6 ^^^ rotr32 x 11 ^^^ rotr32 x 25

/-- SHA-256 small sigma 0. -/
def smallSigma0 (x : Nat) : Nat := rotr32 x 7 ^^^ rotr32 x 18 ^^^ shr32 x 3

/-- SHA-256 small sigma 1. -/
def smallSigma1 (x : Nat) : Nat := rotr32 x 17 ^^^ rotr32 x 19 ^^^ shr32 x 10

/-- SHA-256 choice function. -/
def chF (e f g : Nat) : Nat := (e &&& f) ^^^ (not32 e &&& g)

/-- SHA-256 majority function. -/
def majF (a b c : Nat) : Nat := (a &&& b) ^^^ (a &&& c) ^^^ (b &&& c)

/-- The 64 round constants of the compression function, as decimal Nats. -/
def sha256K : List Nat :=
  [1116352408, 1899447441, 3049323471, 3921009573, 961987163,
   1508970993, 2453635748, 2870763221, 3624381080, 310598401,
   607225278, 1426881987, 1925078388, 2162078206, 2614888103,
   3248222580, 3835390401, 4022224774, 264347078, 604807628,
   770255983, 1249150122, 1555081692, 1996064986, 2554220882,
   2821834349, 2952996808, 3210313671, 3336571891, 3584528711,
   113926993, 338241895, 666307205, 773529912, 1294757372,
   1396182291, 1695183700, 1986661051, 2177026350, 2456956037,
   2730485921, 2820302411, 3259730800, 3345764771, 3516065817,
   3600352804, 4094571909, 275423344, 430227734, 506948616,
   659060556, 883997877, 958139571, 1322822218, 1537002063,
   1747873779, 1955562222, 2024104815, 2227730452, 2361852424,
   2428436474, 2756734187, 3204031479, 3329325298]

/-- The 8-word SHA-256 working state. -/
structure Hash8 where
  a : Nat
  b : Nat
  c : Nat
  d : Nat
  e : Nat
  f : Nat
  g : Nat
  h : Nat
deriving DecidableEq

/-- The initial hash state of the compression pipeline, as decimal Nats. -/
def sha256H0 : Hash8 :=
  ⟨1779033703, 3144134277, 1013904242, 2773480762,
   1359893119, 2600822924, 528734635, 1541459225⟩

/-- One SHA-256 round, consuming one (round constant, schedule word) pair. -/
def roundFn (s : Hash8) (kw : Nat × Nat) : Hash8 :=
  let t1 := add32 s.h (add32 (bigSigma1 s.e) (add32 (chF s.e s.f s.g) (add32 kw.1 kw.2)))
  let t2 := add32 (bigSigma0 s.a) (majF s.a s.b s.c)
  ⟨add32 t1 t2, s.a, s.b, s.c, add32 s.d t1, s.e, s.f, s.g⟩

/-- Extend a 16-word block to the 64-word message schedule (fueled append). -/
def extendW : List Nat → Nat → List Nat
  | w, 0 => w
  | w, n + 1 =>
    let x := add32 (add32 (smallSigma1 (w.getD (w.length - 2) 0)) (w.getD (w.length - 7) 0))
                   (add32 (smallSigma0 (w.getD (w.length - 15) 0)) (w.getD (w.length - 16) 0))
    extendW (w ++ [x]) n

/-- Compress one 16-word chunk into the running hash state. -/
def compressChunk (hs : Hash8) (chunk : List Nat) : Hash8 :=
  let w := extendW chunk 48
  let s := (sha256K.zip w).foldl roundFn hs
  ⟨add32 hs.a s.a, add32 hs.b s.b, add32 hs.c s.c, add32 hs.d s.d,
   add32 hs.e s.e, add32 hs.f s.f, add32 hs.g s.g, add32 hs.h s.h⟩

/-- A Nat as 8 big-endian bytes (the 64-bit message length field). -/
def beBytes8 (n : Nat) : List Nat :=
  [n / 2 ^ 56 % 256, n / 2 ^ 48 % 256, n / 2 ^ 40 % 256, n / 2 ^ 32 % 256,
   n / 2 ^ 24 % 256, n / 2 ^ 16 % 256, n / 2 ^ 8 % 256, n % 256]

/-- SHA-256 padding: a 0x80 byte, zeros to 56 mod 64, then the bit length. -/
def padMsg (m : List Nat) : List Nat :=
  m ++ [128] ++ List.replicate ((119 - m.length % 64) % 64) 0 ++ beBytes8 (8 * m.length)

/-- Big-endian 4-byte groups as 32-bit words. -/
def toWords : List Nat → List Nat
  | b0 :: b1 :: b2 :: b3 :: rest =>
    (b0 * 16777216 + b1 * 65536 + b2 * 256 + b3) :: toWords rest
  | _ => []

/-- Split a word list into 16-word chunks (padded input is a multiple of 16
words, so the final catch-all case never fires on real messages). -/
def chunk16 : List Nat → List (List Nat)
  | [] => []
  | w0 :: w1 :: w2 :: w3 :: w4 :: w5 :: w6 :: w7 ::
    w8 :: w9 :: w10 :: w11 :: w12 :: w13 :: w14 :: w15 :: rest =>
    [w0, w1, w2, w3, w4, w5, w6, w7, w8, w9, w10, w11, w12, w13, w14, w15] :: chunk16 rest
  | l => [l]

/-- A hash word as 4 big-endian bytes. -/
def wordBytes (n : Nat) : List Nat :=
  [n / 2 ^ 24 % 256, n / 2 ^ 16 % 256, n / 2 ^ 8 % 256, n % 256]

/-- SHA-256 of a byte list, as the 32 digest bytes. -/
def sha256 (m : List Nat) : List Nat :=
  let hs := (chunk16 (toWords (padMsg m))).foldl compressChunk sha256H0
  wordBytes hs.a ++ wordBytes hs.b ++ wordBytes hs.c ++ wordBytes hs.d ++
  wordBytes hs.e ++ wordBytes hs.f ++ wordBytes hs.g ++ wordBytes hs.h

/-- A nibble as a lowercase hex character. -/
def hexDigitChar (n : Nat) : Char :=
  if n = 0 then '0' else if n = 1 then '1' else if n = 2 then '2'
  else if n = 3 then '3' else if n = 4 then '4' else if n = 5 then '5'
  else if n = 6 then '6' else if n = 7 then '7' else if n = 8 then '8'
  else if n = 9 then '9' else if n = 10 then 'a' else if n = 11 then 'b'
  else if n = 12 then 'c' else if n = 13 then 'd' else if n = 14 then 'e'
  else 'f'

/-- encoding/hex EncodeToString: two lowercase hex digits per byte. -/
def hexEncode (bs : List Nat) : String :=
  ⟨bs.flatMap fun b => [hexDigitChar (b / 16), hexDigitChar (b % 16)]⟩

/-! ## computeChecksum (helpers.go) -/

/-- UTF-8 bytes of one code point. -/
def utf8Enc (n : Nat) : List Nat :=
  if n < 128 then [n]
  else if n < 2048 then [192 + n / 64, 128 + n % 64]
  else if n < 65536 then [224 + n / 4096, 128 + n / 64 % 64, 128 + n % 64]
  else [240 + n / 262144, 128 + n / 4096 % 64, 128 + n / 64 % 64, 128 + n % 64]

/-- The bytes of a Go string (UTF-8). -/
def strBytes (s : String) : List Nat :=
  s.data.flatMap fun c => utf8Enc c.toNat

/-- Insert a string into a list sorted in byte order (sort.Strings order:
lexicographic on code points, which agrees with UTF-8 byte order). -/
def insortString (k : String) : List String → List String
  | [] => [k]
  | x :: t => if k ≤ x then k :: x :: t else x :: insortString k t

/-- sort.Strings: the keys in ascending lexicographic order. -/
def sortStrings (l : List String) : List String :=
  l.foldr insortString []

/-- A bundle of key/value pairs: the embedding of map[string][]byte.  Values
are Strings because every byte/string conversion in the source preserves the
bytes. -/
abbrev Bundle := List (String × String)

/-- The byte sequence computeChecksum feeds to the hash: for each key in
sorted order, key, "=", the value, "\n". -/
def serializeBundle (data : Bundle) : List Nat :=
  (sortStrings (keysOf data)).flatMap fun k =>
    strBytes k ++ [61] ++ strBytes (lookupD data k "") ++ [10]

/-- computeChecksum from helpers.go: SHA-256 over the sorted key=value lines,
hex encoded. -/
def computeChecksum (data : Bundle) : String :=
  hexEncode (sha256 (serializeBundle data))

/-! ## Constants (constants.go) -/

/-- Finalizer name from constants.go. -/
def finalizerName : String := "sharedresource.platform.dev/finalizer"

/-- AnnotationManagedBy from constants.go. -/
def annManagedBy : String := "sharedresource.platform.dev/managed-by"

/-- AnnotationSourceNamespace from constants.go. -/
def annSourceNamespace : String := "sharedresource.platform.dev/source-namespace"

/-- AnnotationSourceName from constants.go. -/
def annSourceName : String := "sharedresource.platform.dev/source-name"

/-- AnnotationSourceCR from constants.go. -/
def annSourceCR : String := "sharedresource.platform.dev/source-cr"

/-- AnnotationChecksum from constants.go. -/
def annChecksum : String := "sharedresource.platform.dev/checksum"

/-- AnnotationLastSynced from constants.go. -/
def annLastSynced : String := "sharedresource.platform.dev/last-synced"

/-- ManagedByValue from constants.go. -/
def managedByValue : String := "sharedresource-operator"

/-- ConditionTypeReady from constants.go. -/
def condTypeReady : String := "Ready"

/-- ConditionTypeSourceFound from constants.go. -/
def condTypeSourceFound : String := "SourceFound"

/-- Modelled from the spec: the KindSecret constant is declared in
constants.go, whose tail is not in src.  Its value "Secret" is fixed by the
kubebuilder enum on SourceSpec.Kind (Secret;ConfigMap), by the literal kind
string the correlation functions pass for Secrets, and by the e2e tests that
drive Kind "Secret" through the sync switch. -/
def kindSecret : String := "Secret"

/-- Modelled from the spec: the KindConfigMap constant, by the same evidence
as kindSecret. -/
def kindConfigMap : String := "ConfigMap"

/-! ## Data model (api/v1alpha1/sharedresource_types.go) -/

/-- SourceSpec: kind and name of the source object (same namespace as the CR). -/
structure SourceSpec where
  kind : String
  name : String
deriving DecidableEq

/-- TargetSpec: destination namespace and optional name override ("" = unset). -/
structure TargetSpec where
  ns : String
  name : String
deriving DecidableEq

/-- KeySelector: include/exclude key lists for selective sync. -/
structure KeySelector where
  incl : List String
  excl : List String
deriving DecidableEq

/-- SyncPolicySpec: sync mode ("" = unset) and optional key selector. -/
structure SyncPolicySpec where
  mode : String
  keys : Option KeySelector
deriving DecidableEq

/-- metav1.Condition as used by the controller (LastTransitionTime as Nat). -/
structure Condition where
  ctype : String
  status : String
  ltt : Nat
  reason : String
  message : String
deriving DecidableEq

/-- TargetSyncStatus: the per-target record the controller stores in Status
(lastSynced 0 and errStr "" are the Go zero values). -/
structure TargetSyncStatus where
  ns : String
  name : String
  synced : Bool
  lastSynced : Nat
  errStr : String
deriving DecidableEq

/-- SharedResourceStatus. -/
structure SharedResourceStatus where
  conditions : List Condition
  syncedTargets : List TargetSyncStatus
  lastSyncTime : Option Nat
  sourceChecksum : String
deriving DecidableEq

/-- SharedResourceSpec (deletionPolicy "" = unset, defaulted to orphan). -/
structure SharedResourceSpec where
  source : SourceSpec
  targets : List TargetSpec
  syncPolicy : Option SyncPolicySpec
  deletionPolicy : String
deriving DecidableEq

/-- A SharedResource CR: object metadata (namespace, name, finalizers) plus
spec and status. -/
structure SharedRes where
  ns : String
  name : String
  finalizers : List String
  spec : SharedResourceSpec
  status : SharedResourceStatus
deriving DecidableEq

/-- Annotation maps on cluster objects. -/
abbrev AnnMap := List (String × String)

/-- A Secret in the store: data, type and annotations. -/
structure SecretObj where
  data : Bundle
  stype : String
  anns : AnnMap
deriving DecidableEq

/-- A ConfigMap in the store: data and annotations. -/
structure ConfigMapObj where
  data : Bundle
  anns : AnnMap
deriving DecidableEq

/-! ## filterData (helpers.go) -/

/-- The include loop of filterData: for key in Include, copy data[key] into
the fresh map when present. -/
def pickInclude (data : Bundle) : List String → Bundle → Bundle
  | [], acc => acc
  | k :: ks, acc =>
    match lookupKV data k with
    | some v => pickInclude data ks (upsert acc k v)
    | none => pickInclude data ks acc

/-- filterData from helpers.go: identity unless the policy is present with a
non-empty, non-copy mode and a key selector; then include (or everything)
followed by exclude. -/
def filterData (data : Bundle) (policy : Option SyncPolicySpec) : Bundle :=
  match policy with
  | none => data
  | some p =>
    if p.mode = "" ∨ p.mode = "copy" then data
    else
      match p.keys with
      | none => data
      | some ks =>
        let base := if ks.incl.length > 0 then pickInclude data ks.incl [] else data
        eraseList base ks.excl

/-! ## setCondition (helpers.go) -/

/-- The find-and-update loop of setCondition over the condition list: on the
first condition of the same type, replace it wholly when the boolean status
changed, else update only reason and message; append when no type matches. -/
def setCondList : List Condition → Condition → List Condition
  | [], c => [c]
  | e :: t, c =>
    if e.ctype = c.ctype then
      (if e.status ≠ c.status then c :: t
       else { e with reason := c.reason, message := c.message } :: t)
    else e :: setCondList t c

/-- setCondition from helpers.go, with metav1.Now() passed in as now. -/
def setCondition (sr : SharedRes) (ty status reason message : String) (now : Nat) : SharedRes :=
  { sr with status := { sr.status with
      conditions := setCondList sr.status.conditions ⟨ty, status, now, reason, message⟩ } }

/-- The first condition of a given type, if any. -/
def findCond : List Condition → String → Option Condition
  | [], _ => none
  | c :: t, ty => if c.ctype = ty then some c else findCond t ty

/-! ## syncSecret / syncConfigMap (sync.go) -/

/-- The data-selection step shared by syncSecret and syncConfigMap
(sync.go lines 159-173 / 236-249): merge overlays the source data onto the
existing target data, anything else is copy. -/
def desiredData (syncMode : String) (existingData newData : Bundle) : Bundle :=
  if syncMode = "merge" then overlayKV existingData newData else newData

/-- syncSecret from sync.go as a step on the state of one target key.  The
state is the stored Secret (none = NotFound); the Nat counts underlying store
writes (Create or Update) the call issues.  Logging and I/O faults of the
store are outside the embedding (Get is total). -/
def syncSecretStep (st : Option SecretObj) (data : Bundle) (stype : String)
    (anns : AnnMap) (syncMode : String) : Option SecretObj × Nat :=
  match st with
  | none => (some ⟨data, stype, anns⟩, 1)
  | some ex =>
    let targetData := desiredData syncMode ex.data data
    if computeChecksum ex.data = computeChecksum targetData then
      (some ex, 0)
    else
      (some ⟨targetData, stype, overlayKV ex.anns anns⟩, 1)

/-- syncConfigMap from sync.go as a step on the state of one target key.  The
byte/string conversions around the checksum are value-preserving and thus the
identity here. -/
def syncConfigMapStep (st : Option ConfigMapObj) (data : Bundle)
    (anns : AnnMap) (syncMode : String) : Option ConfigMapObj × Nat :=
  match st with
  | none => (some ⟨data, anns⟩, 1)
  | some ex =>
    let targetData := desiredData syncMode ex.data data
    if computeChecksum ex.data = computeChecksum targetData then
      (some ex, 0)
    else
      (some ⟨targetData, overlayKV ex.anns anns⟩, 1)

/-! ## Deletion (sharedresource_controller.go handleDeletion, sync.go
deleteTargetResources) -/

/-- Target name resolution used by syncAllTargets and deleteTargetResources:
the override, or the source name when unset. -/
def resolveTargetName (t : TargetSpec) (srcName : String) : String :=
  if t.name = "" then srcName else t.name

/-- An object as deleteTargetResources sees it: only its annotations are
consulted. -/
structure TargetObj where
  anns : AnnMap
deriving DecidableEq

/-- The target loop of deleteTargetResources: fetch each resolved target of
the source kind; missing objects are skipped; found objects are deleted only
when their managed-by annotation equals ManagedByValue.  Returns the
(namespace, name) pairs the controller deletes, in order. -/
def deleteTargetLoop (kind srcName : String)
    (sStore cStore : String → String → Option TargetObj) :
    List TargetSpec → List (String × String)
  | [] => []
  | t :: rest =>
    let nm := resolveTargetName t srcName
    let here :=
      if kind = kindSecret then
        match sStore t.ns nm with
        | none => []
        | some o => if lookupD o.anns annManagedBy "" = managedByValue then [(t.ns, nm)] else []
      else if kind = kindConfigMap then
        match cStore t.ns nm with
        | none => []
        | some o => if lookupD o.anns annManagedBy "" = managedByValue then [(t.ns, nm)] else []
      else []
    here ++ deleteTargetLoop kind srcName sStore cStore rest

/-- deleteTargetResources from sync.go. -/
def deleteTargetResources (sr : SharedRes)
    (sStore cStore : String → String → Option TargetObj) : List (String × String) :=
  deleteTargetLoop sr.spec.source.kind sr.spec.source.name sStore cStore sr.spec.targets

/-- controllerutil.RemoveFinalizer: drop every occurrence of the token. -/
def removeFinalizer : List String → String → List String
  | [], _ => []
  | x :: t, f => if x = f then removeFinalizer t f else x :: removeFinalizer t f

/-- handleDeletion from sharedresource_controller.go: when the finalizer is
present, run deleteTargetResources only under DeletionPolicy "delete", then
remove the finalizer; otherwise the call is a no-op.  Returns the updated CR
and the issued target deletions. -/
def handleDeletion (sr : SharedRes)
    (sStore cStore : String → String → Option TargetObj) : SharedRes × List (String × String) :=
  if finalizerName ∈ sr.finalizers then
    let dels := if sr.spec.deletionPolicy = "delete" then deleteTargetResources sr sStore cStore else []
    ({ sr with finalizers := removeFinalizer sr.finalizers finalizerName }, dels)
  else (sr, [])

/-! ## fetchSourceResource / handleSourceError -/

/-- The failures of fetchSourceResource that the embedding models: the store
answered NotFound, or the declared source kind is unsupported. -/
inductive SourceErr where
  | notFound : SourceErr
  | unsupportedKind (kind : String) : SourceErr
deriving DecidableEq

/-- fetchSourceResource from sync.go: resolve the source in the CR's own
namespace, dispatching on the declared kind; any other kind is the
"unsupported source kind" error. -/
def fetchSourceResource (sr : SharedRes)
    (sStore : String → String → Option SecretObj)
    (cStore : String → String → Option ConfigMapObj) : Except SourceErr (Bundle × String) :=
  if sr.spec.source.kind = kindSecret then
    match sStore sr.ns sr.spec.source.name with
    | some s => .ok (s.data, s.stype)
    | none => .error .notFound
  else if sr.spec.source.kind = kindConfigMap then
    match cStore sr.ns sr.spec.source.name with
    | some c => .ok (c.data, "")
    | none => .error .notFound
  else .error (.unsupportedKind sr.spec.source.kind)

/-- The ctrl.Result and error a reconcile pass hands back to the scheduler. -/
structure ReconcileOutcome where
  requeue : Bool
  requeueAfterSecs : Option Nat
  errOut : Option SourceErr
deriving DecidableEq

/-- handleSourceError from sharedresource_controller.go: a NotFound source
sets the SourceFound and Ready conditions to False and schedules a 30 second
re-check; every other error is returned to the scheduler unchanged, with the
CR untouched. -/
def handleSourceError (sr : SharedRes) (e : SourceErr) (now : Nat) : SharedRes × ReconcileOutcome :=
  match e with
  | .notFound =>
    let sr1 := setCondition sr condTypeSourceFound "False" "SourceNotFound"
      ("Source " ++ sr.spec.source.kind ++ "/" ++ sr.spec.source.name ++ " not found") now
    let sr2 := setCondition sr1 condTypeReady "False" "SourceNotFound"
      "Cannot sync: source resource not found" now
    (sr2, ⟨false, some 30, none⟩)
  | e => (sr, ⟨false, none, some e⟩)

/-! ## syncAllTargets / updateStatus (sharedresource_controller.go) -/

/-- The target loop of syncAllTargets.  The outcome of r.syncToTarget on a
given (namespace, name) depends on the external store client; it enters the
embedding as the oracle tErr (some message = the sync returned that error).
The loop itself — name resolution, one status record per declared target in
order, allSynced as the conjunction of the per-target outcomes — is the code
under proof. -/
def syncAllLoop (srcName : String) (tErr : String → String → Option String) (now : Nat) :
    List TargetSpec → List TargetSyncStatus × Bool
  | [] => ([], true)
  | t :: rest =>
    let nm := resolveTargetName t srcName
    let r := syncAllLoop srcName tErr now rest
    match tErr t.ns nm with
    | some msg => (⟨t.ns, nm, false, 0, msg⟩ :: r.1, false)
    | none => (⟨t.ns, nm, true, now, ""⟩ :: r.1, r.2)

/-- syncAllTargets from sharedresource_controller.go. -/
def syncAllTargets (sr : SharedRes) (tErr : String → String → Option String) (now : Nat) :
    List TargetSyncStatus × Bool :=
  syncAllLoop sr.spec.source.name tErr now sr.spec.targets

/-- updateStatus from sharedresource_controller.go: store the per-target
records and the checksum; on full success stamp LastSyncTime and set Ready
true, otherwise set Ready false and leave LastSyncTime alone. -/
def updateStatus (sr : SharedRes) (syncedTargets : List TargetSyncStatus)
    (checksum : String) (allSynced : Bool) (now : Nat) : SharedRes :=
  let sr1 := { sr with status := { sr.status with
    syncedTargets := syncedTargets, sourceChecksum := checksum } }
  if allSynced then
    setCondition
      { sr1 with status := { sr1.status with lastSyncTime := some now } }
      condTypeReady "True" "SyncSuccessful" "All targets synced successfully" now
  else
    setCondition sr1 condTypeReady "False" "SyncFailed" "Some targets failed to sync" now

/-! ## Correlation (sharedresource_controller.go watch mapping) -/

/-- A reconcile request: the namespace and name of a SharedResource CR. -/
structure ReconcileRequest where
  ns : String
  name : String
deriving DecidableEq

/-- A watched Secret or ConfigMap as the mapping functions see it. -/
structure WatchedObj where
  ns : String
  name : String
  anns : AnnMap
deriving DecidableEq

/-- findSharedResourceForManagedResource: read the owning CR straight off the
object's annotations; nothing when either annotation is missing or empty. -/
def findSharedResourceForManagedResource (anns : AnnMap) : List ReconcileRequest :=
  let srcNs := lookupD anns annSourceNamespace ""
  let srcCR := lookupD anns annSourceCR ""
  if srcNs = "" ∨ srcCR = "" then [] else [⟨srcNs, srcCR⟩]

/-- The scan loop of findSharedResourcesForSource over the SharedResources of
one namespace. -/
def findSourceLoop (name kind : String) : List SharedRes → List ReconcileRequest
  | [] => []
  | sr :: rest =>
    if sr.spec.source.kind = kind ∧ sr.spec.source.name = name then
      ⟨sr.ns, sr.name⟩ :: findSourceLoop name kind rest
    else findSourceLoop name kind rest

/-- findSharedResourcesForSource: the r.List call restricted to the object's
namespace is the namespace filter over the cluster's SharedResource list. -/
def findSharedResourcesForSource (allSRs : List SharedRes) (ns name kind : String) :
    List ReconcileRequest :=
  findSourceLoop name kind (allSRs.filter fun sr => sr.ns == ns)

/-- findSharedResourcesForSecret: managed-target fast path when the object
carries the managed-by marker with our value, otherwise the source scan. -/
def findSharedResourcesForSecret (allSRs : List SharedRes) (s : WatchedObj) :
    List ReconcileRequest :=
  match lookupKV s.anns annManagedBy with
  | some v =>
    if v = managedByValue then findSharedResourceForManagedResource s.anns
    else findSharedResourcesForSource allSRs s.ns s.name "Secret"
  | none => findSharedResourcesForSource allSRs s.ns s.name "Secret"

/-- findSharedResourcesForConfigMap: same classifier for ConfigMaps. -/
def findSharedResourcesForConfigMap (allSRs : List SharedRes) (c : WatchedObj) :
    List ReconcileRequest :=
  match lookupKV c.anns annManagedBy with
  | some v =>
    if v = managedByValue then findSharedResourceForManagedResource c.anns
    else findSharedResourcesForSource allSRs c.ns c.name "ConfigMap"
  | none => findSharedResourcesForSource allSRs c.ns c.name "ConfigMap"

/-! ## Map lemmas -/

/-- After m[k] = v, reading k gives v. -/
theorem lookupKV_upsert_same {α : Type} (l : List (String × α)) (k : String) (v : α) :
    lookupKV (upsert l k v) k = some v := by
  induction l with
  | nil => simp [upsert, lookupKV]
  | cons p t ih =>
    by_cases h : p.1 = k
    · simp [upsert, h, lookupKV]
    · simp [upsert, h, lookupKV, ih]

/-- After m[k] = v, reading any other key is unchanged. -/
theorem lookupKV_upsert_other {α : Type} (l : List (String × α)) (k k' : String) (v : α)
    (hne : k' ≠ k) : lookupKV (upsert l k v) k' = lookupKV l k' := by
  have hkk : ¬ k = k' := fun h => hne h.symm
  induction l with
  | nil => simp [upsert, lookupKV, hkk]
  | cons p t ih =>
    by_cases h : p.1 = k
    · have h2 : ¬ p.1 = k' := by rw [h]; exact hkk
      simp [upsert, h, lookupKV, hkk, h2]
    · simp [upsert, h, lookupKV, ih]

/-- A key outside the key list reads as missing. -/
theorem lookupKV_eq_none_of_not_mem {α : Type} (l : List (String × α)) (k : String)
    (h : k ∉ keysOf l) : lookupKV l k = none := by
  induction l with
  | nil => rfl
  | cons p t ih =>
    simp only [keysOf, List.map_cons, List.mem_cons] at h
    push_neg at h
    have h1 : ¬ p.1 = k := fun hh => h.1 hh.symm
    simp only [lookupKV, if_neg h1]
    exact ih (by simpa [keysOf] using h.2)

/-- Writing the value a key already has leaves the map unchanged. -/
theorem upsert_self {α : Type} (l : List (String × α)) (k : String) (v : α)
    (h : lookupKV l k = some v) : upsert l k v = l := by
  induction l with
  | nil => simp [lookupKV] at h
  | cons p t ih =>
    by_cases hk : p.1 = k
    · simp only [lookupKV, if_pos hk] at h
      have hv : p.2 = v := Option.some.inj h
      obtain ⟨pk, pv⟩ := p
      subst hk
      subst hv
      simp [upsert]
    · simp only [lookupKV, if_neg hk] at h
      simp [upsert, hk, ih h]

/-- Overlaying pairs the base already holds leaves the base unchanged. -/
theorem overlayKV_self {α : Type} (base : List (String × α)) (u : List (String × α))
    (h : ∀ p ∈ u, lookupKV base p.1 = some p.2) : overlayKV base u = base := by
  induction u generalizing base with
  | nil => rfl
  | cons p t ih =>
    have hb : upsert base p.1 p.2 = base := upsert_self _ _ _ (h p (by simp))
    simp only [overlayKV, hb]
    exact ih base fun q hq => h q (by simp [hq])

/-- Reading an overlay: the update wins where it binds the key, the base
answers elsewhere (update keys distinct, as for a Go map). -/
theorem lookupKV_overlayKV {α : Type} (u base : List (String × α)) (k : String)
    (hnd : (keysOf u).Nodup) :
    lookupKV (overlayKV base u) k = (lookupKV u k).orElse fun _ => lookupKV base k := by
  induction u generalizing base with
  | nil => simp [overlayKV, lookupKV, Option.orElse]
  | cons p t ih =>
    simp only [keysOf, List.map_cons, List.nodup_cons] at hnd
    by_cases hk : p.1 = k
    · have hnt : lookupKV t k = none := by
        apply lookupKV_eq_none_of_not_mem
        simpa [keysOf, hk] using hnd.1
      simp only [overlayKV, lookupKV, if_pos hk, ih _ hnd.2, hnt, Option.orElse]
      rw [hk, lookupKV_upsert_same]
    · simp only [overlayKV, lookupKV, if_neg hk]
      rw [ih _ hnd.2, lookupKV_upsert_other _ _ _ _ fun hh => hk hh.symm]

/-- In a map with distinct keys, every binding is read back. -/
theorem lookupKV_of_mem_nodup {α : Type} (l : List (String × α)) (p : String × α)
    (hmem : p ∈ l) (hnd : (keysOf l).Nodup) : lookupKV l p.1 = some p.2 := by
  induction l with
  | nil => simp at hmem
  | cons q t ih =>
    simp only [keysOf, List.map_cons, List.nodup_cons] at hnd
    rcases List.mem_cons.mp hmem with h | h
    · simp [lookupKV, h]
    · have hq : ¬ q.1 = p.1 := by
        intro he
        exact hnd.1 (he ▸ List.mem_map_of_mem Prod.fst h)
      simp only [lookupKV, if_neg hq]
      exact ih h hnd.2

/-- Overlaying the same distinct-keyed update twice is the same as once. -/
theorem overlayKV_idem {α : Type} (base u : List (String × α))
    (hnd : (keysOf u).Nodup) : overlayKV (overlayKV base u) u = overlayKV base u := by
  apply overlayKV_self
  intro p hp
  rw [lookupKV_overlayKV u base p.1 hnd, lookupKV_of_mem_nodup u p hp hnd]
  rfl

/-- A deleted key reads as missing. -/
theorem lookupKV_eraseKey_same {α : Type} (l : List (String × α)) (k : String) :
    lookupKV (eraseKey l k) k = none := by
  induction l with
  | nil => rfl
  | cons p t ih =>
    by_cases h : p.1 = k
    · simp [eraseKey, h, ih]
    · simp [eraseKey, h, lookupKV, ih]

/-- Deleting one key leaves the others readable. -/
theorem lookupKV_eraseKey_other {α : Type} (l : List (String × α)) (k k' : String)
    (hne : k ≠ k') : lookupKV (eraseKey l k') k = lookupKV l k := by
  induction l with
  | nil => rfl
  | cons p t ih =>
    by_cases h : p.1 = k'
    · have h2 : ¬ p.1 = k := by rw [h]; exact fun hh => hne hh.symm
      simp only [eraseKey, if_pos h, lookupKV, if_neg h2]
      exact ih
    · simp [eraseKey, h, lookupKV, ih]

/-- Reading after a sequence of deletes: missing iff the key was deleted. -/
theorem lookupKV_eraseList {α : Type} (ks : List String) (l : List (String × α)) (k : String) :
    lookupKV (eraseList l ks) k = if k ∈ ks then none else lookupKV l k := by
  induction ks generalizing l with
  | nil => simp [eraseList]
  | cons k0 t ih =>
    by_cases hk : k = k0
    · subst hk
      by_cases hm : k ∈ t
      · simp [eraseList, ih, hm]
      · simp [eraseList, ih, hm, lookupKV_eraseKey_same]
    · simp only [eraseList, ih, List.mem_cons]
      rw [lookupKV_eraseKey_other _ _ _ fun hh => hk hh]
      by_cases hm : k ∈ t
      · simp [hm, hk]
      · simp [hm, hk]

/-- Reading the include-loop accumulator: include keys answer from the data
(when present there), all other keys from the accumulator. -/
theorem lookupKV_pickInclude (data : Bundle) (ks : List String) (acc : Bundle) (k : String) :
    lookupKV (pickInclude data ks acc) k =
      if k ∈ ks then (lookupKV data k).orElse (fun _ => lookupKV acc k)
      else lookupKV acc k := by
  induction ks generalizing acc with
  | nil => simp [pickInclude]
  | cons k0 t ih =>
    simp only [pickInclude, List.mem_cons]
    by_cases hk : k = k0
    · subst hk
      cases hd : lookupKV data k with
      | some v =>
        by_cases hm : k ∈ t
        · simp [hd, ih, hm, Option.orElse]
        · simp [hd, ih, hm, lookupKV_upsert_same, Option.orElse]
      | none =>
        by_cases hm : k ∈ t
        · simp [hd, ih, hm, Option.orElse]
        · simp [hd, ih, hm, Option.orElse]
    · cases hd : lookupKV data k0 with
      | some v =>
        simp only [ih, lookupKV_upsert_other acc k0 k v hk]
        by_cases hm : k ∈ t
        · simp [hm, hk]
        · simp [hm, hk]
      | none =>
        simp only [ih]
        by_cases hm : k ∈ t
        · simp [hm, hk]
        · simp [hm, hk]

/-! ## Sync helper lemmas -/

/-- Overlaying a distinct-keyed map onto itself changes nothing. -/
theorem overlayKV_self_nodup {α : Type} (d : List (String × α))
    (hnd : (keysOf d).Nodup) : overlayKV d d = d :=
  overlayKV_self d d fun p hp => lookupKV_of_mem_nodup d p hp hnd

/-- The desired data of a fresh copy of the source is itself a fixed point of
the data-selection step, in every mode. -/
theorem desiredData_self (syncMode : String) (d : Bundle)
    (hnd : (keysOf d).Nodup) : desiredData syncMode d d = d := by
  by_cases h : syncMode = "merge"
  · simp [desiredData, h, overlayKV_self_nodup d hnd]
  · simp [desiredData, h]

/-- Re-running the data-selection step on its own output changes nothing. -/
theorem desiredData_stable (syncMode : String) (existingData d : Bundle)
    (hnd : (keysOf d).Nodup) :
    desiredData syncMode (desiredData syncMode existingData d) d =
      desiredData syncMode existingData d := by
  by_cases h : syncMode = "merge"
  · simp [desiredData, h, overlayKV_idem existingData d hnd]
  · simp [desiredData, h]

/-- A syncSecret call issues at most one store write. -/
theorem syncSecretStep_writes_le_one (st : Option SecretObj) (data : Bundle)
    (stype : String) (anns : AnnMap) (syncMode : String) :
    (syncSecretStep st data stype anns syncMode).2 ≤ 1 := by
  cases st with
  | none => simp [syncSecretStep]
  | some ex =>
    by_cases h : computeChecksum ex.data = computeChecksum (desiredData syncMode ex.data data)
    · simp [syncSecretStep, if_pos h]
    · simp [syncSecretStep, if_neg h]

/-- A syncConfigMap call issues at most one store write. -/
theorem syncConfigMapStep_writes_le_one (st : Option ConfigMapObj) (data : Bundle)
    (anns : AnnMap) (syncMode : String) :
    (syncConfigMapStep st data anns syncMode).2 ≤ 1 := by
  cases st with
  | none => simp [syncConfigMapStep]
  | some ex =>
    by_cases h : computeChecksum ex.data = computeChecksum (desiredData syncMode ex.data data)
    · simp [syncConfigMapStep, if_pos h]
    · simp [syncConfigMapStep, if_neg h]

/-- Re-running syncSecret with the same inputs on the state the first call
left behind writes nothing and changes nothing. -/
theorem syncSecretStep_fixed (st : Option SecretObj) (data : Bundle) (stype : String)
    (anns : AnnMap) (syncMode : String) (hnd : (keysOf data).Nodup) :
    syncSecretStep (syncSecretStep st data stype anns syncMode).1 data stype anns syncMode =
      ((syncSecretStep st data stype anns syncMode).1, 0) := by
  cases st with
  | none =>
    have hsd : desiredData syncMode data data = data := desiredData_self syncMode data hnd
    simp [syncSecretStep, hsd]
  | some ex =>
    by_cases h : computeChecksum ex.data = computeChecksum (desiredData syncMode ex.data data)
    · simp only [syncSecretStep, if_pos h]
    · simp only [syncSecretStep, if_neg h]
      rw [desiredData_stable syncMode ex.data data hnd]
      simp

/-- Re-running syncConfigMap with the same inputs on the state the first call
left behind writes nothing and changes nothing. -/
theorem syncConfigMapStep_fixed (st : Option ConfigMapObj) (data : Bundle)
    (anns : AnnMap) (syncMode : String) (hnd : (keysOf data).Nodup) :
    syncConfigMapStep (syncConfigMapStep st data anns syncMode).1 data anns syncMode =
      ((syncConfigMapStep st data anns syncMode).1, 0) := by
  cases st with
  | none =>
    have hsd : desiredData syncMode data data = data := desiredData_self syncMode data hnd
    simp [syncConfigMapStep, hsd]
  | some ex =>
    by_cases h : computeChecksum ex.data = computeChecksum (desiredData syncMode ex.data data)
    · simp only [syncConfigMapStep, if_pos h]
    · simp only [syncConfigMapStep, if_neg h]
      rw [desiredData_stable syncMode ex.data data hnd]
      simp

/-! ## Claim C1 -/

/-- C1 (amended): for every target state, bundle with distinct keys, secret
type, annotations and mode, a second syncSecret (or syncConfigMap) call with
identical inputs against the state left by the first performs no store write
and leaves the state fixed, and the two calls together issue at most one
write.  The original "exactly one write" fails when the target already held
the desired data, see the counterexample. -/
theorem syncTarget_second_call_noop (st : Option SecretObj) (cst : Option ConfigMapObj)
    (data : Bundle) (stype : String) (anns : AnnMap) (syncMode : String)
    (hnd : (keysOf data).Nodup) :
    ((syncSecretStep (syncSecretStep st data stype anns syncMode).1 data stype anns syncMode).2 = 0 ∧
     (syncSecretStep (syncSecretStep st data stype anns syncMode).1 data stype anns syncMode).1 =
       (syncSecretStep st data stype anns syncMode).1 ∧
     (syncSecretStep st data stype anns syncMode).2 +
       (syncSecretStep (syncSecretStep st data stype anns syncMode).1 data stype anns syncMode).2 ≤ 1) ∧
    ((syncConfigMapStep (syncConfigMapStep cst data anns syncMode).1 data anns syncMode).2 = 0 ∧
     (syncConfigMapStep (syncConfigMapStep cst data anns syncMode).1 data anns syncMode).1 =
       (syncConfigMapStep cst data anns syncMode).1 ∧
     (syncConfigMapStep cst data anns syncMode).2 +
       (syncConfigMapStep (syncConfigMapStep cst data anns syncMode).1 data anns syncMode).2 ≤ 1) := by
  have hs := syncSecretStep_fixed st data stype anns syncMode hnd
  have hc := syncConfigMapStep_fixed cst data anns syncMode hnd
  refine ⟨⟨?_, ?_, ?_⟩, ?_, ?_, ?_⟩
  · rw [hs]
  · rw [hs]
  · rw [hs]
    simpa using syncSecretStep_writes_le_one st data stype anns syncMode
  · rw [hc]
  · rw [hc]
  · rw [hc]
    simpa using syncConfigMapStep_writes_le_one cst data anns syncMode

/-- Witness for C1 at a concrete input: a missing Secret target and a missing
ConfigMap target, bundle with the single key k. -/
theorem syncTarget_second_call_noop_witness :
    (keysOf [("k", "v")]).Nodup ∧
    ((syncSecretStep (syncSecretStep none [("k", "v")] "Opaque" [] "copy").1
        [("k", "v")] "Opaque" [] "copy").2 = 0 ∧
     (syncSecretStep (syncSecretStep none [("k", "v")] "Opaque" [] "copy").1
        [("k", "v")] "Opaque" [] "copy").1 =
       (syncSecretStep none [("k", "v")] "Opaque" [] "copy").1 ∧
     (syncSecretStep none [("k", "v")] "Opaque" [] "copy").2 +
       (syncSecretStep (syncSecretStep none [("k", "v")] "Opaque" [] "copy").1
          [("k", "v")] "Opaque" [] "copy").2 ≤ 1) ∧
    ((syncConfigMapStep (syncConfigMapStep none [("k", "v")] [] "copy").1
        [("k", "v")] [] "copy").2 = 0 ∧
     (syncConfigMapStep (syncConfigMapStep none [("k", "v")] [] "copy").1
        [("k", "v")] [] "copy").1 = (syncConfigMapStep none [("k", "v")] [] "copy").1 ∧
     (syncConfigMapStep none [("k", "v")] [] "copy").2 +
       (syncConfigMapStep (syncConfigMapStep none [("k", "v")] [] "copy").1
          [("k", "v")] [] "copy").2 ≤ 1) :=
  ⟨by decide, syncTarget_second_call_noop none none [("k", "v")] "Opaque" [] "copy" (by decide)⟩

/-- Counterexample to C1 as stated: when the target already holds exactly the
desired data, the first call is itself a no-op, so the two calls together
perform zero underlying writes, not exactly one. -/
theorem syncTarget_exactly_one_write_cx :
    (syncSecretStep (some ⟨[("k", "v")], "Opaque", []⟩) [("k", "v")] "Opaque" [] "copy").2 +
      (syncSecretStep
        (syncSecretStep (some ⟨[("k", "v")], "Opaque", []⟩) [("k", "v")] "Opaque" [] "copy").1
        [("k", "v")] "Opaque" [] "copy").2 = 0 ∧
    ¬((syncSecretStep (some ⟨[("k", "v")], "Opaque", []⟩) [("k", "v")] "Opaque" [] "copy").2 +
      (syncSecretStep
        (syncSecretStep (some ⟨[("k", "v")], "Opaque", []⟩) [("k", "v")] "Opaque" [] "copy").1
        [("k", "v")] "Opaque" [] "copy").2 = 1) := by
  have h : syncSecretStep (some ⟨[("k", "v")], "Opaque", []⟩) [("k", "v")] "Opaque" [] "copy" =
      (some ⟨[("k", "v")], "Opaque", []⟩, 0) := by
    simp [syncSecretStep, desiredData]
  rw [h]
  rw [h]
  simp

/-! ## Claim C10 -/

/-- C10: when the stored target's data checksum equals the checksum of the
desired data, syncSecret and syncConfigMap return success without issuing any
write and leave every field of the stored object — data, type, and all
tracking annotations, stale or missing as they may be — exactly as found. -/
theorem sync_checksum_match_frame (ex : SecretObj) (cex : ConfigMapObj) (data : Bundle)
    (stype : String) (anns : AnnMap) (syncMode : String)
    (h1 : computeChecksum ex.data = computeChecksum (desiredData syncMode ex.data data))
    (h2 : computeChecksum cex.data = computeChecksum (desiredData syncMode cex.data data)) :
    syncSecretStep (some ex) data stype anns syncMode = (some ex, 0) ∧
    syncConfigMapStep (some cex) data anns syncMode = (some cex, 0) := by
  constructor
  · simp only [syncSecretStep]
    rw [if_pos h1]
  · simp only [syncConfigMapStep]
    rw [if_pos h2]

/-- Witness for C10: targets that already hold the desired data but carry a
stale checksum annotation and no managed-by marker are returned untouched —
not adopted, not re-stamped. -/
theorem sync_checksum_match_frame_witness :
    syncSecretStep (some ⟨[("k", "v")], "Opaque", [("sharedresource.platform.dev/checksum", "stale")]⟩)
        [("k", "v")] "Opaque" [(annManagedBy, managedByValue)] "copy" =
      (some ⟨[("k", "v")], "Opaque", [("sharedresource.platform.dev/checksum", "stale")]⟩, 0) ∧
    syncConfigMapStep (some ⟨[("k", "v")], []⟩) [("k", "v")] [(annManagedBy, managedByValue)] "copy" =
      (some ⟨[("k", "v")], []⟩, 0) :=
  sync_checksum_match_frame
    ⟨[("k", "v")], "Opaque", [("sharedresource.platform.dev/checksum", "stale")]⟩
    ⟨[("k", "v")], []⟩ [("k", "v")] "Opaque" [(annManagedBy, managedByValue)] "copy"
    (by simp [desiredData]) (by simp [desiredData])

/-! ## Claim C2 -/

/-- C2: against an existing target, copy mode writes exactly the filtered
bundle (pre-existing target keys absent from the bundle are dropped), and
merge mode overlays the bundle onto the existing target data — on keys
present in both the source value wins, and target-only keys keep their
existing value. -/
theorem desiredData_copy_merge (existingData d : Bundle) (k : String) :
    desiredData "copy" existingData d = d ∧
    ((keysOf d).Nodup →
      lookupKV (desiredData "merge" existingData d) k =
        ((lookupKV d k).orElse fun _ => lookupKV existingData k)) := by
  constructor
  · simp [desiredData]
  · intro hnd
    simp only [desiredData, if_pos rfl]
    exact lookupKV_overlayKV d existingData k hnd

/-- Witness for C2: merging one source key over a target that has a conflict
and a private extra key — the source wins the conflict, the extra key
survives; copy mode returns the bundle alone. -/
theorem desiredData_copy_merge_witness :
    desiredData "copy" [("extra", "keep"), ("shared", "old")] [("shared", "new")] =
      [("shared", "new")] ∧
    (keysOf [("shared", "new")]).Nodup ∧
    lookupKV (desiredData "merge" [("extra", "keep"), ("shared", "old")] [("shared", "new")])
      "shared" = some "new" ∧
    lookupKV (desiredData "merge" [("extra", "keep"), ("shared", "old")] [("shared", "new")])
      "extra" = some "keep" := by
  refine ⟨(desiredData_copy_merge [("extra", "keep"), ("shared", "old")] [("shared", "new")] "shared").1,
    by decide, ?_, ?_⟩
  · rw [(desiredData_copy_merge [("extra", "keep"), ("shared", "old")] [("shared", "new")] "shared").2
      (by decide)]
    decide
  · rw [(desiredData_copy_merge [("extra", "keep"), ("shared", "old")] [("shared", "new")] "extra").2
      (by decide)]
    decide

/-! ## Claim C5 -/

/-- C5: in selective mode with a key selector, filterData keeps exactly the
bundle pairs whose keys are in a non-empty include list (include keys missing
from the bundle are skipped silently), or the whole bundle when include is
empty, and then removes every excluded key — so an excluded key never
survives, even when it is also included. -/
theorem filter_include_then_exclude (data : Bundle) (inc exc : List String) (k : String) :
    (inc ≠ [] →
      lookupKV (filterData data (some ⟨"selective", some ⟨inc, exc⟩⟩)) k =
        if k ∈ exc then none else if k ∈ inc then lookupKV data k else none) ∧
    (inc = [] →
      lookupKV (filterData data (some ⟨"selective", some ⟨inc, exc⟩⟩)) k =
        if k ∈ exc then none else lookupKV data k) ∧
    (k ∈ exc → lookupKV (filterData data (some ⟨"selective", some ⟨inc, exc⟩⟩)) k = none) := by
  have hmode : ¬((("selective" : String)) = "" ∨ (("selective" : String)) = "copy") := by decide
  refine ⟨?_, ?_, ?_⟩
  · intro hinc
    have hlen : 0 < inc.length := List.length_pos.mpr hinc
    simp only [filterData, if_neg hmode, if_pos hlen, lookupKV_eraseList]
    by_cases hexc : k ∈ exc
    · simp [hexc]
    · simp only [if_neg hexc, lookupKV_pickInclude]
      by_cases hincm : k ∈ inc
      · simp only [if_pos hincm]
        cases hd : lookupKV data k <;> simp [Option.orElse, lookupKV]
      · simp [hincm, lookupKV]
  · intro hinc
    subst hinc
    simp only [filterData, if_neg hmode, List.length_nil, lt_irrefl, if_neg, reduceIte,
      lookupKV_eraseList]
  · intro hexc
    simp only [filterData, if_neg hmode]
    by_cases hlen : 0 < inc.length
    · simp [if_pos hlen, lookupKV_eraseList, hexc]
    · simp [if_neg hlen, lookupKV_eraseList, hexc]

/-- Witness for C5: the key secret is both included and excluded — exclude
wins; the key b is not included and is gone; the included key missing from
the bundle causes no error and the included key a survives. -/
theorem filter_include_then_exclude_witness :
    (["a", "secret", "ghost"] ≠ ([] : List String)) ∧
    lookupKV (filterData [("a", "1"), ("b", "2"), ("secret", "3")]
      (some ⟨"selective", some ⟨["a", "secret", "ghost"], ["secret"]⟩⟩)) "secret" = none ∧
    lookupKV (filterData [("a", "1"), ("b", "2"), ("secret", "3")]
      (some ⟨"selective", some ⟨["a", "secret", "ghost"], ["secret"]⟩⟩)) "a" = some "1" ∧
    lookupKV (filterData [("a", "1"), ("b", "2"), ("secret", "3")]
      (some ⟨"selective", some ⟨["a", "secret", "ghost"], ["secret"]⟩⟩)) "b" = none := by
  refine ⟨by decide,
    (filter_include_then_exclude [("a", "1"), ("b", "2"), ("secret", "3")]
      ["a", "secret", "ghost"] ["secret"] "secret").2.2 (by decide), ?_, ?_⟩
  · rw [(filter_include_then_exclude [("a", "1"), ("b", "2"), ("secret", "3")]
      ["a", "secret", "ghost"] ["secret"] "a").1 (by decide)]
    decide
  · rw [(filter_include_then_exclude [("a", "1"), ("b", "2"), ("secret", "3")]
      ["a", "secret", "ghost"] ["secret"] "b").1 (by decide)]
    decide

/-! ## Condition lemmas -/

/-- With no condition of the incoming type present, setCondition appends. -/
theorem setCondList_append (conds : List Condition) (c : Condition)
    (h : findCond conds c.ctype = none) : setCondList conds c = conds ++ [c] := by
  induction conds with
  | nil => rfl
  | cons e t ih =>
    by_cases he : e.ctype = c.ctype
    · simp [findCond, he] at h
    · simp only [findCond, if_neg he] at h
      simp [setCondList, he, ih h]

/-- Every condition type after setCondition is the incoming type or one that
was already present. -/
theorem mem_ctype_setCondList (conds : List Condition) (c : Condition) (x : String)
    (h : x ∈ (setCondList conds c).map Condition.ctype) :
    x = c.ctype ∨ x ∈ conds.map Condition.ctype := by
  induction conds with
  | nil => simpa [setCondList] using h
  | cons e t ih =>
    by_cases he : e.ctype = c.ctype
    · by_cases hst : e.status ≠ c.status
      · simp only [setCondList, if_pos he, if_pos hst, List.map_cons, List.mem_cons] at h
        rcases h with h | h
        · exact Or.inl h
        · exact Or.inr (by simp [h])
      · simp only [setCondList, if_pos he, if_neg hst, List.map_cons, List.mem_cons] at h
        rcases h with h | h
        · exact Or.inr (by simp [h])
        · exact Or.inr (by simp [h])
    · simp only [setCondList, if_neg he, List.map_cons, List.mem_cons] at h
      rcases h with h | h
      · exact Or.inr (by simp [h])
      · rcases ih h with h2 | h2
        · exact Or.inl h2
        · exact Or.inr (by simp [h2])

/-- setCondition preserves "at most one condition per type". -/
theorem setCondList_nodup (conds : List Condition) (c : Condition)
    (hnd : (conds.map Condition.ctype).Nodup) :
    ((setCondList conds c).map Condition.ctype).Nodup := by
  induction conds with
  | nil => simp [setCondList]
  | cons e t ih =>
    simp only [List.map_cons, List.nodup_cons] at hnd
    by_cases he : e.ctype = c.ctype
    · by_cases hst : e.status ≠ c.status
      · simp only [setCondList, if_pos he, if_pos hst, List.map_cons, List.nodup_cons]
        exact ⟨he ▸ hnd.1, hnd.2⟩
      · simp only [setCondList, if_pos he, if_neg hst, List.map_cons, List.nodup_cons]
        exact hnd
    · simp only [setCondList, if_neg he, List.map_cons, List.nodup_cons]
      refine ⟨fun hm => ?_, ih hnd.2⟩
      rcases mem_ctype_setCondList t c e.ctype hm with h2 | h2
      · exact he h2
      · exact hnd.1 h2

/-- The condition of the incoming type after setCondition: wholly replaced on
a status change, otherwise only reason and message updated. -/
theorem findCond_setCondList_self (conds : List Condition) (c old : Condition)
    (h : findCond conds c.ctype = some old) :
    findCond (setCondList conds c) c.ctype =
      some (if old.status ≠ c.status then c
            else { old with reason := c.reason, message := c.message }) := by
  induction conds with
  | nil => simp [findCond] at h
  | cons e t ih =>
    by_cases he : e.ctype = c.ctype
    · simp only [findCond, if_pos he] at h
      have hoe : e = old := Option.some.inj h
      subst hoe
      by_cases hst : e.status ≠ c.status
      · simp [setCondList, he, hst, findCond]
      · simp [setCondList, he, hst, findCond]
    · simp only [findCond, if_neg he] at h
      simp only [setCondList, if_neg he, findCond, if_neg he]
      exact ih h

/-- setCondition never changes a condition of a different type. -/
theorem findCond_setCondList_other (conds : List Condition) (c : Condition) (ty' : String)
    (h : ¬ ty' = c.ctype) : findCond (setCondList conds c) ty' = findCond conds ty' := by
  have hcty : ¬ c.ctype = ty' := fun hh => h hh.symm
  induction conds with
  | nil =>
    simp [setCondList, findCond, hcty]
  | cons e t ih =>
    by_cases he : e.ctype = c.ctype
    · have hety : ¬ e.ctype = ty' := by rw [he]; exact hcty
      by_cases hst : e.status ≠ c.status
      · simp [setCondList, he, hst, findCond, hety, hcty]
      · simp [setCondList, he, hst, findCond, hety, hcty]
    · simp only [setCondList, if_neg he, findCond]
      by_cases hety : e.ctype = ty'
      · simp [hety]
      · simp [hety, ih]

/-! ## Claim C9 -/

/-- C9: starting from a condition list with at most one condition per type,
setCondition keeps that invariant; a missing type is appended with transition
time now, a present type with unchanged boolean status gets only its reason
and message updated (transition time untouched), a present type with changed
status is wholly replaced including the fresh transition time, and conditions
of every other type are untouched. -/
theorem setCondition_keyed_invariant (conds : List Condition) (ty st r m : String) (now : Nat)
    (hnd : (conds.map Condition.ctype).Nodup) :
    ((setCondList conds ⟨ty, st, now, r, m⟩).map Condition.ctype).Nodup ∧
    (findCond conds ty = none →
      setCondList conds ⟨ty, st, now, r, m⟩ = conds ++ [⟨ty, st, now, r, m⟩]) ∧
    (∀ old, findCond conds ty = some old →
      (old.status = st →
        findCond (setCondList conds ⟨ty, st, now, r, m⟩) ty =
          some { old with reason := r, message := m }) ∧
      (old.status ≠ st →
        findCond (setCondList conds ⟨ty, st, now, r, m⟩) ty = some ⟨ty, st, now, r, m⟩)) ∧
    (∀ ty', ty' ≠ ty → findCond (setCondList conds ⟨ty, st, now, r, m⟩) ty' = findCond conds ty') := by
  refine ⟨setCondList_nodup conds _ hnd, fun h => setCondList_append conds _ h, ?_, ?_⟩
  · intro old hold
    constructor
    · intro hsame
      have := findCond_setCondList_self conds ⟨ty, st, now, r, m⟩ old hold
      rwa [if_neg (by simpa using hsame)] at this
    · intro hdiff
      have := findCond_setCondList_self conds ⟨ty, st, now, r, m⟩ old hold
      rwa [if_pos (by simpa using hdiff)] at this
  · intro ty' hty
    exact findCond_setCondList_other conds _ ty' hty

/-- Witness for C9 on a concrete two-condition list: a status flip replaces
the Ready entry with a fresh transition time, a same-status update keeps the
old transition time, an unseen type is appended, and the SourceFound entry is
never touched. -/
theorem setCondition_keyed_invariant_witness :
    (([⟨"Ready", "False", 1, "r0", "m0"⟩, ⟨"SourceFound", "True", 2, "r1", "m1"⟩] :
        List Condition).map Condition.ctype).Nodup ∧
    findCond ([⟨"Ready", "False", 1, "r0", "m0"⟩, ⟨"SourceFound", "True", 2, "r1", "m1"⟩] :
        List Condition) "Ready" = some ⟨"Ready", "False", 1, "r0", "m0"⟩ ∧
    (⟨"Ready", "False", 1, "r0", "m0"⟩ : Condition).status ≠ "True" ∧
    findCond (setCondList [⟨"Ready", "False", 1, "r0", "m0"⟩, ⟨"SourceFound", "True", 2, "r1", "m1"⟩]
        ⟨"Ready", "True", 9, "SyncSuccessful", "ok"⟩) "Ready" =
      some ⟨"Ready", "True", 9, "SyncSuccessful", "ok"⟩ ∧
    (⟨"Ready", "False", 1, "r0", "m0"⟩ : Condition).status = "False" ∧
    findCond (setCondList [⟨"Ready", "False", 1, "r0", "m0"⟩, ⟨"SourceFound", "True", 2, "r1", "m1"⟩]
        ⟨"Ready", "False", 9, "SyncFailed", "bad"⟩) "Ready" =
      some ⟨"Ready", "False", 1, "SyncFailed", "bad"⟩ ∧
    findCond (setCondList [⟨"Ready", "False", 1, "r0", "m0"⟩, ⟨"SourceFound", "True", 2, "r1", "m1"⟩]
        ⟨"Ready", "True", 9, "SyncSuccessful", "ok"⟩) "SourceFound" =
      findCond ([⟨"Ready", "False", 1, "r0", "m0"⟩, ⟨"SourceFound", "True", 2, "r1", "m1"⟩] :
        List Condition) "SourceFound" ∧
    setCondList ([] : List Condition) ⟨"Degraded", "True", 9, "r", "m"⟩ =
      [⟨"Degraded", "True", 9, "r", "m"⟩] := by
  refine ⟨by decide, by decide, by decide, ?_, by decide, ?_, ?_, ?_⟩
  · exact ((setCondition_keyed_invariant
      [⟨"Ready", "False", 1, "r0", "m0"⟩, ⟨"SourceFound", "True", 2, "r1", "m1"⟩]
      "Ready" "True" "SyncSuccessful" "ok" 9 (by decide)).2.2.1
      ⟨"Ready", "False", 1, "r0", "m0"⟩ (by decide)).2 (by decide)
  · exact ((setCondition_keyed_invariant
      [⟨"Ready", "False", 1, "r0", "m0"⟩, ⟨"SourceFound", "True", 2, "r1", "m1"⟩]
      "Ready" "False" "SyncFailed" "bad" 9 (by decide)).2.2.1
      ⟨"Ready", "False", 1, "r0", "m0"⟩ (by decide)).1 (by decide)
  · exact (setCondition_keyed_invariant
      [⟨"Ready", "False", 1, "r0", "m0"⟩, ⟨"SourceFound", "True", 2, "r1", "m1"⟩]
      "Ready" "True" "SyncSuccessful" "ok" 9 (by decide)).2.2.2 "SourceFound" (by decide)
  · exact (setCondition_keyed_invariant [] "Degraded" "True" "r" "m" 9 (by decide)).2.1 (by decide)

/-! ## Deletion lemmas -/

/-- Every deletion deleteTargetResources issues names a declared target at its
resolved name, and the stored object there carries the exact managed-by
marker value for the matching source kind. -/
theorem mem_deleteTargetLoop (kind srcName : String)
    (sStore cStore : String → String → Option TargetObj) (targets : List TargetSpec)
    (d : String × String) (hmem : d ∈ deleteTargetLoop kind srcName sStore cStore targets) :
    ∃ t ∈ targets, d = (t.ns, resolveTargetName t srcName) ∧
      ((kind = kindSecret ∧ ∃ o, sStore t.ns (resolveTargetName t srcName) = some o ∧
          lookupD o.anns annManagedBy "" = managedByValue) ∨
       (kind = kindConfigMap ∧ ∃ o, cStore t.ns (resolveTargetName t srcName) = some o ∧
          lookupD o.anns annManagedBy "" = managedByValue)) := by
  induction targets with
  | nil => simp [deleteTargetLoop] at hmem
  | cons t rest ih =>
    have step : ∀ h2 : d ∈ deleteTargetLoop kind srcName sStore cStore rest, _ := fun h2 => ih h2
    by_cases hks : kind = kindSecret
    · cases hs : sStore t.ns (resolveTargetName t srcName) with
      | none =>
        simp only [deleteTargetLoop, if_pos hks, hs, List.nil_append] at hmem
        obtain ⟨t', ht', rest'⟩ := ih hmem
        exact ⟨t', by simp [ht'], rest'⟩
      | some o =>
        by_cases ha : lookupD o.anns annManagedBy "" = managedByValue
        · simp only [deleteTargetLoop, if_pos hks, hs, if_pos ha, List.cons_append,
            List.nil_append, List.mem_cons] at hmem
          rcases hmem with hd | hd
          · exact ⟨t, by simp, hd, Or.inl ⟨hks, o, hs, ha⟩⟩
          · obtain ⟨t', ht', rest'⟩ := ih hd
            exact ⟨t', by simp [ht'], rest'⟩
        · simp only [deleteTargetLoop, if_pos hks, hs, if_neg ha, List.nil_append] at hmem
          obtain ⟨t', ht', rest'⟩ := ih hmem
          exact ⟨t', by simp [ht'], rest'⟩
    · by_cases hkc : kind = kindConfigMap
      · cases hs : cStore t.ns (resolveTargetName t srcName) with
        | none =>
          simp only [deleteTargetLoop, if_neg hks, if_pos hkc, hs, List.nil_append] at hmem
          obtain ⟨t', ht', rest'⟩ := ih hmem
          exact ⟨t', by simp [ht'], rest'⟩
        | some o =>
          by_cases ha : lookupD o.anns annManagedBy "" = managedByValue
          · simp only [deleteTargetLoop, if_neg hks, if_pos hkc, hs, if_pos ha,
              List.cons_append, List.nil_append, List.mem_cons] at hmem
            rcases hmem with hd | hd
            · exact ⟨t, by simp, hd, Or.inr ⟨hkc, o, hs, ha⟩⟩
            · obtain ⟨t', ht', rest'⟩ := ih hd
              exact ⟨t', by simp [ht'], rest'⟩
          · simp only [deleteTargetLoop, if_neg hks, if_pos hkc, hs, if_neg ha,
              List.nil_append] at hmem
            obtain ⟨t', ht', rest'⟩ := ih hmem
            exact ⟨t', by simp [ht'], rest'⟩
      · simp only [deleteTargetLoop, if_neg hks, if_neg hkc, List.nil_append] at hmem
        obtain ⟨t', ht', rest'⟩ := ih hmem
        exact ⟨t', by simp [ht'], rest'⟩

/-! ## Claim C3 -/

/-- C3: every deletion handleDeletion issues targets a declared target whose
stored object carries the exact managed-by marker value, and only under
deletion policy delete; under orphan (or any other policy) nothing is
deleted; whenever the finalizer is present it is removed, and when it is
absent the whole call is a no-op. -/
theorem handleDeletion_safety (sr : SharedRes)
    (sStore cStore : String → String → Option TargetObj) :
    (∀ d ∈ (handleDeletion sr sStore cStore).2,
      sr.spec.deletionPolicy = "delete" ∧
      ∃ t ∈ sr.spec.targets, d = (t.ns, resolveTargetName t sr.spec.source.name) ∧
        ((sr.spec.source.kind = kindSecret ∧
          ∃ o, sStore t.ns (resolveTargetName t sr.spec.source.name) = some o ∧
            lookupD o.anns annManagedBy "" = managedByValue) ∨
         (sr.spec.source.kind = kindConfigMap ∧
          ∃ o, cStore t.ns (resolveTargetName t sr.spec.source.name) = some o ∧
            lookupD o.anns annManagedBy "" = managedByValue))) ∧
    (sr.spec.deletionPolicy ≠ "delete" → (handleDeletion sr sStore cStore).2 = []) ∧
    (finalizerName ∈ sr.finalizers →
      finalizerName ∉ (handleDeletion sr sStore cStore).1.finalizers) ∧
    (finalizerName ∉ sr.finalizers → handleDeletion sr sStore cStore = (sr, [])) := by
  have hrm : ∀ fs : List String, finalizerName ∉ removeFinalizer fs finalizerName := by
    intro fs
    induction fs with
    | nil => simp [removeFinalizer]
    | cons x t ih =>
      by_cases hx : x = finalizerName
      · simpa [removeFinalizer, hx] using ih
      · have hfx : ¬ finalizerName = x := fun h => hx h.symm
        simp [removeFinalizer, hx, ih, hfx]
  refine ⟨?_, ?_, ?_, ?_⟩
  · intro d hd
    by_cases hfin : finalizerName ∈ sr.finalizers
    · by_cases hpol : sr.spec.deletionPolicy = "delete"
      · simp only [handleDeletion, if_pos hfin, if_pos hpol] at hd
        exact ⟨hpol, mem_deleteTargetLoop _ _ _ _ _ _ hd⟩
      · simp [handleDeletion, if_pos hfin, if_neg hpol] at hd
    · simp [handleDeletion, if_neg hfin] at hd
  · intro hpol
    by_cases hfin : finalizerName ∈ sr.finalizers
    · simp [handleDeletion, if_pos hfin, if_neg hpol]
    · simp [handleDeletion, if_neg hfin]
  · intro hfin
    simp only [handleDeletion, if_pos hfin]
    exact hrm sr.finalizers
  · intro hfin
    simp [handleDeletion, if_neg hfin]

/-- Witness for C3 on a concrete cluster: a delete-policy CR with two
targets, one marked and one unmarked; the issued deletion is the marked
declared target; an orphan CR deletes nothing; a CR without the finalizer is
untouched. -/
theorem handleDeletion_safety_witness :
    (("b1", "src") ∈ (handleDeletion
        ⟨"a", "sr0", [finalizerName], ⟨⟨"Secret", "src"⟩, [⟨"b1", ""⟩, ⟨"b2", ""⟩], none, "delete"⟩,
          ⟨[], [], none, ""⟩⟩
        (fun ns nm => if ns = "b1" ∧ nm = "src" then some ⟨[(annManagedBy, managedByValue)]⟩
          else if ns = "b2" ∧ nm = "src" then some ⟨[(annManagedBy, "intruder")]⟩ else none)
        (fun _ _ => none)).2) ∧
    ((⟨"a", "sr0", [finalizerName], ⟨⟨"Secret", "src"⟩, [⟨"b1", ""⟩, ⟨"b2", ""⟩], none, "delete"⟩,
        ⟨[], [], none, ""⟩⟩ : SharedRes).spec.deletionPolicy = "delete" ∧
      ∃ t ∈ ([⟨"b1", ""⟩, ⟨"b2", ""⟩] : List TargetSpec),
        (("b1", "src") : String × String) = (t.ns, resolveTargetName t "src") ∧
        ((("Secret" : String) = kindSecret ∧
          ∃ o, (fun ns nm => if ns = "b1" ∧ nm = "src" then
                  some (⟨[(annManagedBy, managedByValue)]⟩ : TargetObj)
                else if ns = "b2" ∧ nm = "src" then some ⟨[(annManagedBy, "intruder")]⟩
                else none) t.ns (resolveTargetName t "src") = some o ∧
            lookupD o.anns annManagedBy "" = managedByValue) ∨
         (("Secret" : String) = kindConfigMap ∧
          ∃ o, (none : Option TargetObj) = some o ∧
            lookupD o.anns annManagedBy "" = managedByValue))) ∧
    ((handleDeletion
        ⟨"a", "sr1", [finalizerName], ⟨⟨"Secret", "src"⟩, [⟨"b1", ""⟩], none, "orphan"⟩,
          ⟨[], [], none, ""⟩⟩
        (fun _ _ => some ⟨[(annManagedBy, managedByValue)]⟩) (fun _ _ => none)).2 = []) ∧
    (handleDeletion
        ⟨"a", "sr2", [], ⟨⟨"Secret", "src"⟩, [⟨"b1", ""⟩], none, "delete"⟩, ⟨[], [], none, ""⟩⟩
        (fun _ _ => some ⟨[(annManagedBy, managedByValue)]⟩) (fun _ _ => none) =
      (⟨"a", "sr2", [], ⟨⟨"Secret", "src"⟩, [⟨"b1", ""⟩], none, "delete"⟩, ⟨[], [], none, ""⟩⟩, [])) := by
  have hd1 : (("b1", "src") ∈ (handleDeletion
      ⟨"a", "sr0", [finalizerName], ⟨⟨"Secret", "src"⟩, [⟨"b1", ""⟩, ⟨"b2", ""⟩], none, "delete"⟩,
        ⟨[], [], none, ""⟩⟩
      (fun ns nm => if ns = "b1" ∧ nm = "src" then some ⟨[(annManagedBy, managedByValue)]⟩
        else if ns = "b2" ∧ nm = "src" then some ⟨[(annManagedBy, "intruder")]⟩ else none)
      (fun _ _ => none)).2) := by
    simp [handleDeletion, finalizerName, deleteTargetResources, deleteTargetLoop,
      kindSecret, kindConfigMap, resolveTargetName, lookupD, lookupKV, annManagedBy,
      managedByValue]
  refine ⟨hd1, ?_, ?_, ?_⟩
  · have h := (handleDeletion_safety
      ⟨"a", "sr0", [finalizerName], ⟨⟨"Secret", "src"⟩, [⟨"b1", ""⟩, ⟨"b2", ""⟩], none, "delete"⟩,
        ⟨[], [], none, ""⟩⟩
      (fun ns nm => if ns = "b1" ∧ nm = "src" then some ⟨[(annManagedBy, managedByValue)]⟩
        else if ns = "b2" ∧ nm = "src" then some ⟨[(annManagedBy, "intruder")]⟩ else none)
      (fun _ _ => none)).1 ("b1", "src") hd1
    exact h
  · exact (handleDeletion_safety
      ⟨"a", "sr1", [finalizerName], ⟨⟨"Secret", "src"⟩, [⟨"b1", ""⟩], none, "orphan"⟩,
        ⟨[], [], none, ""⟩⟩
      (fun _ _ => some ⟨[(annManagedBy, managedByValue)]⟩) (fun _ _ => none)).2.1 (by decide)
  · exact (handleDeletion_safety
      ⟨"a", "sr2", [], ⟨⟨"Secret", "src"⟩, [⟨"b1", ""⟩], none, "delete"⟩, ⟨[], [], none, ""⟩⟩
      (fun _ _ => some ⟨[(annManagedBy, managedByValue)]⟩) (fun _ _ => none)).2.2.2
      (by decide)

/-! ## Claim C4 -/

/-- C4 (amended): a source kind that is neither Secret nor ConfigMap makes
fetchSourceResource fail with the unsupported-kind error before consulting the
store, and the reconcile pass hands that error to the scheduler unchanged:
handleSourceError leaves the CR — its Status conditions included — untouched,
schedules no requeue and no RequeueAfter, and returns the error (scheduler
level backoff-retry, not a Status surface).  The original claim's "surfaced
through the Intent's Status (conditions)" fails, see the counterexample. -/
theorem unsupported_kind_error_path (sr : SharedRes)
    (sStore : String → String → Option SecretObj)
    (cStore : String → String → Option ConfigMapObj) (now : Nat)
    (h1 : sr.spec.source.kind ≠ kindSecret) (h2 : sr.spec.source.kind ≠ kindConfigMap) :
    fetchSourceResource sr sStore cStore = .error (.unsupportedKind sr.spec.source.kind) ∧
    handleSourceError sr (.unsupportedKind sr.spec.source.kind) now =
      (sr, ⟨false, none, some (.unsupportedKind sr.spec.source.kind)⟩) := by
  constructor
  · simp only [fetchSourceResource, if_neg h1, if_neg h2]
  · rfl

/-- Witness for C4 at a concrete CR whose declared source kind is Foo. -/
theorem unsupported_kind_error_path_witness :
    fetchSourceResource
        ⟨"ns0", "sr0", [finalizerName], ⟨⟨"Foo", "src"⟩, [⟨"tgt", ""⟩], none, ""⟩,
          ⟨[], [], none, ""⟩⟩
        (fun _ _ => none) (fun _ _ => none) = .error (.unsupportedKind "Foo") ∧
    handleSourceError
        ⟨"ns0", "sr0", [finalizerName], ⟨⟨"Foo", "src"⟩, [⟨"tgt", ""⟩], none, ""⟩,
          ⟨[], [], none, ""⟩⟩
        (.unsupportedKind "Foo") 7 =
      (⟨"ns0", "sr0", [finalizerName], ⟨⟨"Foo", "src"⟩, [⟨"tgt", ""⟩], none, ""⟩,
          ⟨[], [], none, ""⟩⟩,
        ⟨false, none, some (.unsupportedKind "Foo")⟩) :=
  unsupported_kind_error_path
    ⟨"ns0", "sr0", [finalizerName], ⟨⟨"Foo", "src"⟩, [⟨"tgt", ""⟩], none, ""⟩, ⟨[], [], none, ""⟩⟩
    (fun _ _ => none) (fun _ _ => none) 7 (by decide) (by decide)

/-- Counterexample to C4 as stated: on a CR with source kind Foo and no
conditions, the pass returns the unsupported-kind error to the scheduler but
writes nothing into Status — the condition list stays empty, so the error is
not surfaced through the Intent's Status as the claim requires (and the
non-nil error return means the scheduler retries with backoff). -/
theorem unsupported_kind_not_in_status_cx :
    (handleSourceError
        ⟨"ns0", "sr0", [finalizerName], ⟨⟨"Foo", "src"⟩, [⟨"tgt", ""⟩], none, ""⟩,
          ⟨[], [], none, ""⟩⟩
        (.unsupportedKind "Foo") 7).1.status.conditions = [] ∧
    (handleSourceError
        ⟨"ns0", "sr0", [finalizerName], ⟨⟨"Foo", "src"⟩, [⟨"tgt", ""⟩], none, ""⟩,
          ⟨[], [], none, ""⟩⟩
        (.unsupportedKind "Foo") 7).2.errOut = some (.unsupportedKind "Foo") :=
  ⟨rfl, rfl⟩

/-! ## Status lemmas -/

/-- After setCondition, the condition of the incoming type exists and carries
the incoming status, reason and message (whether it was appended, replaced,
or updated in place). -/
theorem findCond_setCondList_head (conds : List Condition) (c : Condition) :
    ∃ c', findCond (setCondList conds c) c.ctype = some c' ∧
      c'.status = c.status ∧ c'.reason = c.reason ∧ c'.message = c.message := by
  induction conds with
  | nil => exact ⟨c, by simp [setCondList, findCond], rfl, rfl, rfl⟩
  | cons e t ih =>
    by_cases he : e.ctype = c.ctype
    · by_cases hst : e.status ≠ c.status
      · exact ⟨c, by simp [setCondList, he, hst, findCond], rfl, rfl, rfl⟩
      · refine ⟨{ e with reason := c.reason, message := c.message }, ?_, ?_, rfl, rfl⟩
        · simp [setCondList, he, hst, findCond]
        · simpa using not_not.mp hst
    · obtain ⟨c', hc', hrest⟩ := ih
      exact ⟨c', by simpa [setCondList, he, findCond] using hc', hrest⟩

/-- The per-target loop of a sync pass: one status record per declared target
in declaration order under the resolved name, allSynced exactly when every
record is synced, successful records stamped with now, failed records carrying
the sync error. -/
theorem syncAllLoop_post (srcName : String) (tErr : String → String → Option String)
    (now : Nat) (targets : List TargetSpec) :
    (((syncAllLoop srcName tErr now targets).1.map fun s => (s.ns, s.name)) =
      targets.map fun t => (t.ns, resolveTargetName t srcName)) ∧
    ((syncAllLoop srcName tErr now targets).2 =
      ((syncAllLoop srcName tErr now targets).1.all fun s => s.synced)) ∧
    (∀ s ∈ (syncAllLoop srcName tErr now targets).1,
      (s.synced = true → tErr s.ns s.name = none ∧ s.lastSynced = now ∧ s.errStr = "") ∧
      (s.synced = false → tErr s.ns s.name = some s.errStr)) := by
  induction targets with
  | nil => exact ⟨rfl, rfl, by simp [syncAllLoop]⟩
  | cons t rest ih =>
    cases ho : tErr t.ns (resolveTargetName t srcName) with
    | some msg =>
      refine ⟨?_, ?_, ?_⟩
      · simp only [syncAllLoop, ho, List.map_cons]
        exact congrArg _ ih.1
      · simp [syncAllLoop, ho]
      · intro s hs
        simp only [syncAllLoop, ho, List.mem_cons] at hs
        rcases hs with hs | hs
        · subst hs
          exact ⟨fun h => by simp at h, fun _ => ho⟩
        · exact ih.2.2 s hs
    | none =>
      refine ⟨?_, ?_, ?_⟩
      · simp only [syncAllLoop, ho, List.map_cons]
        exact congrArg _ ih.1
      · simp only [syncAllLoop, ho, List.all_cons]
        simpa using ih.2.1
      · intro s hs
        simp only [syncAllLoop, ho, List.mem_cons] at hs
        rcases hs with hs | hs
        · subst hs
          exact ⟨fun _ => ⟨ho, rfl, rfl⟩, fun h => by simp at h⟩
        · exact ih.2.2 s hs

/-! ## Claim C6 -/

/-- C6: a sync pass produces exactly one per-target status record for every
declared target, in order and under the resolved name, regardless of which
targets fail (partial-failure isolation); allSynced holds exactly when every
record is synced; and updateStatus stores the records and checksum, sets the
Ready condition True with reason SyncSuccessful and stamps LastSyncTime with
now exactly in the all-synced case, while a failed pass sets Ready False with
reason SyncFailed and leaves LastSyncTime unchanged. -/
theorem sync_pass_status_post (sr : SharedRes) (tErr : String → String → Option String)
    (now : Nat) (checksum : String) :
    (((syncAllTargets sr tErr now).1.map fun s => (s.ns, s.name)) =
      sr.spec.targets.map fun t => (t.ns, resolveTargetName t sr.spec.source.name)) ∧
    ((syncAllTargets sr tErr now).2 =
      ((syncAllTargets sr tErr now).1.all fun s => s.synced)) ∧
    (∀ s ∈ (syncAllTargets sr tErr now).1,
      (s.synced = true → tErr s.ns s.name = none ∧ s.lastSynced = now ∧ s.errStr = "") ∧
      (s.synced = false → tErr s.ns s.name = some s.errStr)) ∧
    (∀ sts : List TargetSyncStatus,
      (updateStatus sr sts checksum true now).status.syncedTargets = sts ∧
      (updateStatus sr sts checksum false now).status.syncedTargets = sts ∧
      (updateStatus sr sts checksum true now).status.sourceChecksum = checksum ∧
      (updateStatus sr sts checksum false now).status.sourceChecksum = checksum ∧
      (updateStatus sr sts checksum true now).status.lastSyncTime = some now ∧
      (updateStatus sr sts checksum false now).status.lastSyncTime = sr.status.lastSyncTime ∧
      (∃ c, findCond (updateStatus sr sts checksum true now).status.conditions condTypeReady =
          some c ∧ c.status = "True" ∧ c.reason = "SyncSuccessful") ∧
      (∃ c, findCond (updateStatus sr sts checksum false now).status.conditions condTypeReady =
          some c ∧ c.status = "False" ∧ c.reason = "SyncFailed")) := by
  obtain ⟨h1, h2, h3⟩ := syncAllLoop_post sr.spec.source.name tErr now sr.spec.targets
  refine ⟨h1, h2, h3, ?_⟩
  intro sts
  refine ⟨rfl, rfl, rfl, rfl, rfl, rfl, ?_, ?_⟩
  · obtain ⟨c, hc, hrest⟩ := findCond_setCondList_head sr.status.conditions
      ⟨condTypeReady, "True", now, "SyncSuccessful", "All targets synced successfully"⟩
    exact ⟨c, hc, hrest.1, hrest.2.1⟩
  · obtain ⟨c, hc, hrest⟩ := findCond_setCondList_head sr.status.conditions
      ⟨condTypeReady, "False", now, "SyncFailed", "Some targets failed to sync"⟩
    exact ⟨c, hc, hrest.1, hrest.2.1⟩

/-- Witness for C6 on a concrete pass: two declared targets, the second one
failing — both get records, allSynced is false, the failing record carries the
error, and updateStatus flips Ready accordingly. -/
theorem sync_pass_status_post_witness :
    (((syncAllTargets
        ⟨"a", "sr0", [finalizerName], ⟨⟨"Secret", "src"⟩, [⟨"t1", ""⟩, ⟨"t2", "other"⟩], none, ""⟩,
          ⟨[], [], some 5, ""⟩⟩
        (fun ns _ => if ns = "t2" then some "boom" else none) 9).1.map fun s => (s.ns, s.name)) =
      [("t1", "src"), ("t2", "other")]) ∧
    ((syncAllTargets
        ⟨"a", "sr0", [finalizerName], ⟨⟨"Secret", "src"⟩, [⟨"t1", ""⟩, ⟨"t2", "other"⟩], none, ""⟩,
          ⟨[], [], some 5, ""⟩⟩
        (fun ns _ => if ns = "t2" then some "boom" else none) 9).2 = false) ∧
    ((fun ns _ => if ns = "t2" then some "boom" else none : String → String → Option String)
        "t2" "other" = some (⟨"t2", "other", false, 0, "boom"⟩ : TargetSyncStatus).errStr) ∧
    ((updateStatus
        ⟨"a", "sr0", [finalizerName], ⟨⟨"Secret", "src"⟩, [⟨"t1", ""⟩, ⟨"t2", "other"⟩], none, ""⟩,
          ⟨[], [], some 5, ""⟩⟩
        [⟨"t1", "src", true, 9, ""⟩, ⟨"t2", "other", false, 0, "boom"⟩] "cs" false 9).status.lastSyncTime
      = some 5) ∧
    (∃ c, findCond (updateStatus
        ⟨"a", "sr0", [finalizerName], ⟨⟨"Secret", "src"⟩, [⟨"t1", ""⟩, ⟨"t2", "other"⟩], none, ""⟩,
          ⟨[], [], some 5, ""⟩⟩
        [⟨"t1", "src", true, 9, ""⟩, ⟨"t2", "other", false, 0, "boom"⟩] "cs" false 9).status.conditions
        condTypeReady = some c ∧ c.status = "False" ∧ c.reason = "SyncFailed") := by
  have h := sync_pass_status_post
    ⟨"a", "sr0", [finalizerName], ⟨⟨"Secret", "src"⟩, [⟨"t1", ""⟩, ⟨"t2", "other"⟩], none, ""⟩,
      ⟨[], [], some 5, ""⟩⟩
    (fun ns _ => if ns = "t2" then some "boom" else none) 9 "cs"
  refine ⟨?_, ?_, ?_, ?_, ?_⟩
  · rw [h.1]
    decide
  · rw [h.2.1]
    decide
  · exact ((h.2.2.1 ⟨"t2", "other", false, 0, "boom"⟩ (by decide)).2 (by decide))
  · exact (h.2.2.2 [⟨"t1", "src", true, 9, ""⟩, ⟨"t2", "other", false, 0, "boom"⟩]).2.2.2.2.2.1
  · exact (h.2.2.2 [⟨"t1", "src", true, 9, ""⟩, ⟨"t2", "other", false, 0, "boom"⟩]).2.2.2.2.2.2.2

/-! ## Correlation lemmas -/

/-- Membership in the source-scan loop: exactly the CRs whose declared source
kind and name match, reported as (CR namespace, CR name). -/
theorem mem_findSourceLoop (name kind : String) (l : List SharedRes) (r : ReconcileRequest) :
    r ∈ findSourceLoop name kind l ↔
      ∃ sr ∈ l, sr.spec.source.kind = kind ∧ sr.spec.source.name = name ∧
        r = ⟨sr.ns, sr.name⟩ := by
  induction l with
  | nil => simp [findSourceLoop]
  | cons sr rest ih =>
    by_cases hm : sr.spec.source.kind = kind ∧ sr.spec.source.name = name
    · simp only [findSourceLoop, if_pos hm, List.mem_cons, ih]
      constructor
      · rintro (hr | ⟨sr', h1, h2⟩)
        · exact ⟨sr, by simp, hm.1, hm.2, hr⟩
        · exact ⟨sr', by simp [h1], h2⟩
      · rintro ⟨sr', he | he, h2⟩
        · exact Or.inl (he ▸ h2.2.2)
        · exact Or.inr ⟨sr', he, h2⟩
    · simp only [findSourceLoop, if_neg hm, ih]
      constructor
      · rintro ⟨sr', h1, h2⟩
        exact ⟨sr', by simp [h1], h2⟩
      · rintro ⟨sr', hmem, h2⟩
        rcases List.mem_cons.mp hmem with he | he
        · exact absurd ⟨he ▸ h2.1, he ▸ h2.2.1⟩ hm
        · exact ⟨sr', he, h2⟩

/-! ## Claim C7 -/

/-- C7: an object carrying the managed-by marker with the controller's value
maps — for any state of the CR list, hence without scanning it — to exactly
the one CR named by its source-namespace/source-cr annotations; any other
object maps to exactly the CRs of its own namespace whose declared source
kind and name match it (so a source mutation reaches every declaring CR), and
an object matching neither branch yields zero requests. -/
theorem correlation_classify (allSRs : List SharedRes) (obj : WatchedObj) :
    (lookupKV obj.anns annManagedBy = some managedByValue →
      lookupD obj.anns annSourceNamespace "" ≠ "" →
      lookupD obj.anns annSourceCR "" ≠ "" →
      findSharedResourcesForSecret allSRs obj =
        [⟨lookupD obj.anns annSourceNamespace "", lookupD obj.anns annSourceCR ""⟩] ∧
      findSharedResourcesForConfigMap allSRs obj =
        [⟨lookupD obj.anns annSourceNamespace "", lookupD obj.anns annSourceCR ""⟩]) ∧
    (lookupKV obj.anns annManagedBy ≠ some managedByValue →
      findSharedResourcesForSecret allSRs obj =
        findSharedResourcesForSource allSRs obj.ns obj.name "Secret" ∧
      findSharedResourcesForConfigMap allSRs obj =
        findSharedResourcesForSource allSRs obj.ns obj.name "ConfigMap") ∧
    (∀ ns name kind r,
      r ∈ findSharedResourcesForSource allSRs ns name kind ↔
        ∃ sr ∈ allSRs, sr.ns = ns ∧ sr.spec.source.kind = kind ∧
          sr.spec.source.name = name ∧ r = ⟨sr.ns, sr.name⟩) ∧
    (lookupKV obj.anns annManagedBy ≠ some managedByValue →
      (∀ sr ∈ allSRs,
        ¬(sr.ns = obj.ns ∧ sr.spec.source.kind = "Secret" ∧ sr.spec.source.name = obj.name)) →
      findSharedResourcesForSecret allSRs obj = []) := by
  have hscan : ∀ ns name kind r,
      r ∈ findSharedResourcesForSource allSRs ns name kind ↔
        ∃ sr ∈ allSRs, sr.ns = ns ∧ sr.spec.source.kind = kind ∧
          sr.spec.source.name = name ∧ r = ⟨sr.ns, sr.name⟩ := by
    intro ns name kind r
    rw [findSharedResourcesForSource, mem_findSourceLoop]
    constructor
    · rintro ⟨sr, hmem, h2⟩
      rw [List.mem_filter] at hmem
      exact ⟨sr, hmem.1, by simpa using hmem.2, h2⟩
    · rintro ⟨sr, hmem, hns, h2⟩
      exact ⟨sr, List.mem_filter.mpr ⟨hmem, by simpa using hns⟩, h2⟩
  have hfb : lookupKV obj.anns annManagedBy ≠ some managedByValue →
      findSharedResourcesForSecret allSRs obj =
        findSharedResourcesForSource allSRs obj.ns obj.name "Secret" ∧
      findSharedResourcesForConfigMap allSRs obj =
        findSharedResourcesForSource allSRs obj.ns obj.name "ConfigMap" := by
    intro h
    cases hl : lookupKV obj.anns annManagedBy with
    | none => exact ⟨by simp [findSharedResourcesForSecret, hl],
        by simp [findSharedResourcesForConfigMap, hl]⟩
    | some v =>
      have hv : ¬ v = managedByValue := fun he => h (he ▸ hl)
      exact ⟨by simp [findSharedResourcesForSecret, hl, hv],
        by simp [findSharedResourcesForConfigMap, hl, hv]⟩
  refine ⟨?_, hfb, hscan, ?_⟩
  · intro h hn hc
    have hman : findSharedResourceForManagedResource obj.anns =
        [⟨lookupD obj.anns annSourceNamespace "", lookupD obj.anns annSourceCR ""⟩] := by
      simp only [findSharedResourceForManagedResource]
      rw [if_neg (not_or.mpr ⟨hn, hc⟩)]
    exact ⟨by simp [findSharedResourcesForSecret, h, hman],
      by simp [findSharedResourcesForConfigMap, h, hman]⟩
  · intro h hno
    rw [(hfb h).1, List.eq_nil_iff_forall_not_mem]
    intro r hr
    obtain ⟨sr, hmem, hns, hkind, hname, _⟩ := (hscan obj.ns obj.name "Secret" r).mp hr
    exact hno sr hmem ⟨hns, hkind, hname⟩

/-- Witness for C7: a marked target object maps straight to its owning CR for
any CR list; an unmarked object named like a declared source maps to the one
declaring CR in its namespace; an unrelated unmarked object maps to nothing. -/
theorem correlation_classify_witness :
    (findSharedResourcesForSecret
        [⟨"a", "sr1", [], ⟨⟨"Secret", "db"⟩, [⟨"t", ""⟩], none, ""⟩, ⟨[], [], none, ""⟩⟩,
         ⟨"b", "sr3", [], ⟨⟨"Secret", "db"⟩, [⟨"t", ""⟩], none, ""⟩, ⟨[], [], none, ""⟩⟩]
        ⟨"x", "y", [(annManagedBy, managedByValue), (annSourceNamespace, "a"),
          (annSourceCR, "sr1")]⟩ = [⟨"a", "sr1"⟩]) ∧
    ((⟨"a", "sr1"⟩ : ReconcileRequest) ∈ findSharedResourcesForSource
        [⟨"a", "sr1", [], ⟨⟨"Secret", "db"⟩, [⟨"t", ""⟩], none, ""⟩, ⟨[], [], none, ""⟩⟩,
         ⟨"b", "sr3", [], ⟨⟨"Secret", "db"⟩, [⟨"t", ""⟩], none, ""⟩, ⟨[], [], none, ""⟩⟩]
        "a" "db" "Secret") ∧
    (findSharedResourcesForSecret
        [⟨"a", "sr1", [], ⟨⟨"Secret", "db"⟩, [⟨"t", ""⟩], none, ""⟩, ⟨[], [], none, ""⟩⟩,
         ⟨"b", "sr3", [], ⟨⟨"Secret", "db"⟩, [⟨"t", ""⟩], none, ""⟩, ⟨[], [], none, ""⟩⟩]
        ⟨"a", "unrelated", []⟩ = []) := by
  refine ⟨?_, ?_, ?_⟩
  · exact ((correlation_classify
      [⟨"a", "sr1", [], ⟨⟨"Secret", "db"⟩, [⟨"t", ""⟩], none, ""⟩, ⟨[], [], none, ""⟩⟩,
       ⟨"b", "sr3", [], ⟨⟨"Secret", "db"⟩, [⟨"t", ""⟩], none, ""⟩, ⟨[], [], none, ""⟩⟩]
      ⟨"x", "y", [(annManagedBy, managedByValue), (annSourceNamespace, "a"),
        (annSourceCR, "sr1")]⟩).1 (by decide) (by decide) (by decide)).1
  · exact ((correlation_classify
      [⟨"a", "sr1", [], ⟨⟨"Secret", "db"⟩, [⟨"t", ""⟩], none, ""⟩, ⟨[], [], none, ""⟩⟩,
       ⟨"b", "sr3", [], ⟨⟨"Secret", "db"⟩, [⟨"t", ""⟩], none, ""⟩, ⟨[], [], none, ""⟩⟩]
      ⟨"a", "db", []⟩).2.2.1 "a" "db" "Secret" ⟨"a", "sr1"⟩).mpr
      ⟨⟨"a", "sr1", [], ⟨⟨"Secret", "db"⟩, [⟨"t", ""⟩], none, ""⟩, ⟨[], [], none, ""⟩⟩,
        by decide, rfl, rfl, rfl, rfl⟩
  · exact (correlation_classify
      [⟨"a", "sr1", [], ⟨⟨"Secret", "db"⟩, [⟨"t", ""⟩], none, ""⟩, ⟨[], [], none, ""⟩⟩,
       ⟨"b", "sr3", [], ⟨⟨"Secret", "db"⟩, [⟨"t", ""⟩], none, ""⟩, ⟨[], [], none, ""⟩⟩]
      ⟨"a", "unrelated", []⟩).2.2.2 (by decide) (by decide)

/-! ## Checksum determinism (supporting results for the checksum engine)

The determinism clauses of the checksum contract are proved below: the hex
output depends only on which key/value pairs the bundle holds, not on the
iteration order, and the empty bundle hashes the empty byte sequence to the
well-known SHA-256 empty digest.  The remaining avalanche clause — a single
byte difference always changes the hex output — is equivalent to SHA-256
having no collision between the two serializations and is settled neither
way here (the serializations themselves always differ, since a one-byte
substitution changes the character multiset of the serialized stream). -/

/-- Inserting into the sorted key list is a permutation of consing. -/
theorem insortString_perm (k : String) (l : List String) :
    (insortString k l).Perm (k :: l) := by
  induction l with
  | nil => simp [insortString]
  | cons x t ih =>
    by_cases h : k ≤ x
    · simp [insortString, h]
    · simp only [insortString, if_neg h]
      exact (ih.cons x).trans (List.Perm.swap k x t)

/-- Inserting into a sorted list keeps it sorted. -/
theorem insortString_sorted (k : String) (l : List String)
    (h : l.Sorted (· ≤ ·)) : (insortString k l).Sorted (· ≤ ·) := by
  induction l with
  | nil => simp [insortString]
  | cons x t ih =>
    rw [List.sorted_cons] at h
    by_cases hle : k ≤ x
    · rw [insortString, if_pos hle, List.sorted_cons]
      refine ⟨fun b hb => ?_, List.sorted_cons.mpr h⟩
      rcases List.mem_cons.mp hb with hb | hb
      · exact hb ▸ hle
      · exact hle.trans (h.1 b hb)
    · rw [insortString, if_neg hle, List.sorted_cons]
      refine ⟨fun b hb => ?_, ih h.2⟩
      rcases List.mem_cons.mp ((insortString_perm k t).mem_iff.mp hb) with hb2 | hb2
      · exact hb2 ▸ le_of_not_le hle
      · exact h.1 b hb2

/-- sort.Strings returns a permutation of its input. -/
theorem sortStrings_perm (l : List String) : (sortStrings l).Perm l := by
  induction l with
  | nil => simp [sortStrings]
  | cons x t ih =>
    exact (insortString_perm x (sortStrings t)).trans (ih.cons x)

/-- sort.Strings sorts ascending. -/
theorem sortStrings_sorted (l : List String) : (sortStrings l).Sorted (· ≤ ·) := by
  induction l with
  | nil => simp [sortStrings]
  | cons x t ih => exact insortString_sorted x (sortStrings t) ih

/-- Key lists that are permutations of each other sort identically. -/
theorem sortStrings_eq_of_perm (l1 l2 : List String) (h : l1.Perm l2) :
    sortStrings l1 = sortStrings l2 :=
  List.eq_of_perm_of_sorted
    ((sortStrings_perm l1).trans (h.trans (sortStrings_perm l2).symm))
    (sortStrings_sorted l1) (sortStrings_sorted l2)

/-- A successful lookup names a binding of the map. -/
theorem mem_of_lookupKV_some {α : Type} (l : List (String × α)) (k : String) (v : α)
    (h : lookupKV l k = some v) : (k, v) ∈ l := by
  induction l with
  | nil => simp [lookupKV] at h
  | cons p t ih =>
    by_cases hk : p.1 = k
    · simp only [lookupKV, if_pos hk] at h
      have hv := Option.some.inj h
      have hp : p = (k, v) := by
        obtain ⟨p1, p2⟩ := p
        simp only at hk hv
        rw [hk, hv]
      exact List.mem_cons.mpr (Or.inl hp.symm)
    · simp only [lookupKV, if_neg hk] at h
      exact List.mem_cons_of_mem p (ih h)

/-- A failed lookup means the key is absent. -/
theorem not_mem_of_lookupKV_none {α : Type} (l : List (String × α)) (k : String)
    (h : lookupKV l k = none) : k ∉ keysOf l := by
  induction l with
  | nil => simp [keysOf]
  | cons p t ih =>
    by_cases hk : p.1 = k
    · simp [lookupKV, hk] at h
    · simp only [lookupKV, if_neg hk] at h
      simp only [keysOf, List.map_cons, List.mem_cons]
      push_neg
      exact ⟨fun hh => hk hh.symm, by simpa [keysOf] using ih h⟩

/-- On maps with distinct keys, lookup is invariant under permutation. -/
theorem lookupKV_perm {α : Type} (l1 l2 : List (String × α)) (k : String)
    (h : l1.Perm l2) (hnd : (keysOf l1).Nodup) : lookupKV l1 k = lookupKV l2 k := by
  cases hc : lookupKV l1 k with
  | some v =>
    have hnd2 : (keysOf l2).Nodup := (h.map Prod.fst).nodup_iff.mp hnd
    have hm : (k, v) ∈ l2 := h.mem_iff.mp (mem_of_lookupKV_some l1 k v hc)
    exact (lookupKV_of_mem_nodup l2 (k, v) hm hnd2).symm
  | none =>
    have hk : k ∉ keysOf l2 := fun hm =>
      not_mem_of_lookupKV_none l1 k hc ((h.map Prod.fst).mem_iff.mpr hm)
    exact (lookupKV_eq_none_of_not_mem l2 k hk).symm

/-- The serialized stream depends only on the key/value pairs, not on the
bundle's iteration order. -/
theorem serializeBundle_perm (b1 b2 : Bundle) (h : b1.Perm b2)
    (hnd : (keysOf b1).Nodup) : serializeBundle b1 = serializeBundle b2 := by
  have hsort : sortStrings (keysOf b1) = sortStrings (keysOf b2) :=
    sortStrings_eq_of_perm _ _ (h.map Prod.fst)
  have hlook : ∀ k, lookupD b1 k "" = lookupD b2 k "" := fun k => by
    simp [lookupD, lookupKV_perm b1 b2 k h hnd]
  simp only [serializeBundle, hsort, hlook]

/-- Checksum determinism: two bundles holding the same key/value pairs (in
any order) produce the identical hex string. -/
theorem computeChecksum_perm (b1 b2 : Bundle) (h : b1.Perm b2)
    (hnd : (keysOf b1).Nodup) : computeChecksum b1 = computeChecksum b2 := by
  simp only [computeChecksum, serializeBundle_perm b1 b2 h hnd]

/-- The empty bundle serializes to the empty byte sequence and hashes to the
standard SHA-256 empty-input digest. -/
theorem computeChecksum_nil :
    serializeBundle [] = [] ∧
    computeChecksum [] =
      "e3b0c44298fc1c149afbf4c8996fb92427ae41e4649b934ca495991b7852b855" := by
  constructor
  · rfl
  · decide
